import Mathlib

/-!
Verification of the data-retrieval-system core: a shallow embedding of the
cache model (`models/query_result.py`), the cache manager and query engine
(`core/cache_manager.py`, `core/query_engine.py`), the connector manager
(`core/connector_manager.py`), the JSONPath extraction helpers
(`core/base_connector.py`), and the FBI crime / USDA NASS connectors
(`connectors/fbi_crime/connector.py`, `connectors/usda_nass/connector.py`).

JSON documents are modelled by the inductive `JVal`; Python dicts are
association lists of string keys (CPython dicts preserve insertion order and
have unique keys).  External effects (HTTP responses, the jsonpath-ng
library) enter as explicit oracle parameters.
-/

/-- JSON values: the payloads, parameter maps and cached results that flow
through the system. Objects are ordered association lists, mirroring Python
dict insertion order. -/
inductive JVal where
  | null
  | bool (b : Bool)
  | num (n : Int)
  | str (s : String)
  | arr (xs : List JVal)
  | obj (kvs : List (String × JVal))

/-- First-match association-list lookup: Python `d[k]` / `k in d` for a dict
represented with unique keys. -/
def lookupJ (kvs : List (String × JVal)) (k : String) : Option JVal :=
  match kvs with
  | [] => none
  | (k', v) :: rest => if k' = k then some v else lookupJ rest k

/-- Python truthiness of a JSON value (`bool(x)`): `None`, `False`, `0`,
`""`, `[]` and `{}` are falsy, everything else truthy. -/
def pyTruthy : JVal → Bool
  | .null => false
  | .bool b => b
  | .num n => n != 0
  | .str s => !s.isEmpty
  | .arr xs => !xs.isEmpty
  | .obj kvs => !kvs.isEmpty

/-- Python `len(x)`: defined on strings, lists and dicts, raises `TypeError`
(modelled as `.error ()`) on numbers, booleans and `None`. -/
def pyLen : JVal → Except Unit Nat
  | .str s => .ok s.length
  | .arr xs => .ok xs.length
  | .obj kvs => .ok kvs.length
  | _ => .error ()

/-! ## Canonical JSON serialization (`json.dumps(..., sort_keys=True)`)

`QueryResult._generate_hash` serializes `{"source_id": ..., "parameters": ...}`
with `json.dumps(..., sort_keys=True)` and hashes the string.  CPython's
encoder emits `", "` / `": "` separators and, under `sort_keys`, sorts the
`(key, value)` items of every dict; since dict keys are unique, that order is
the lexicographic order on the keys.  We model the sort on the
`(key, serialized value)` pairs with the lexicographic order, which produces
the same sequence because ties on keys cannot occur in a dict. -/

/-- JSON string escaping for the two characters whose escaping matters to the
canonical form (`\` and `"`); other characters are emitted as-is.  The exact
escape table is irrelevant to the claims: only that serialization is a
function of the value. -/
def jsonEscapeChar (c : Char) : List Char :=
  if c = '\\' then ['\\', '\\']
  else if c = '"' then ['\\', '"']
  else [c]

/-- A serialized JSON string literal: quote, escape, quote. -/
def jstr (s : String) : String :=
  "\"" ++ String.mk (s.data.flatMap jsonEscapeChar) ++ "\""

/-- Join serialized items with the `", "` separator used by `json.dumps`. -/
def joinComma : List String → String
  | [] => ""
  | [x] => x
  | x :: xs => x ++ ", " ++ joinComma xs

/-- Lexicographic comparison of character lists by code point — the order
Python uses to compare strings in `sorted`. -/
def charListLt : List Char → List Char → Bool
  | _, [] => false
  | [], _ :: _ => true
  | a :: as, b :: bs =>
      if a.toNat < b.toNat then true
      else if b.toNat < a.toNat then false
      else charListLt as bs

/-- Python `a < b` on strings. -/
def strLt (a b : String) : Bool := charListLt a.data b.data

/-- Python `a <= b` on strings. -/
def strLe (a b : String) : Bool := !strLt b a

/-- Ordering used to sort the `(key, serialized value)` pairs of an object:
lexicographic on the pair of strings (key first).  With unique keys this is
exactly CPython's `sorted(dct.items())` order. -/
def entryLe (a b : String × String) : Prop :=
  strLt a.1 b.1 = true ∨ (a.1 = b.1 ∧ strLe a.2 b.2 = true)

instance : DecidableRel entryLe := fun a b => by
  unfold entryLe; infer_instance

/-- Sort the serialized `(key, value)` pairs of an object, as
`sort_keys=True` does. -/
def sortPairs (l : List (String × String)) : List (String × String) :=
  List.insertionSort entryLe l

/-- One serialized object entry: `"key": value`. -/
def entryStr (kv : String × String) : String :=
  jstr kv.1 ++ ": " ++ kv.2

mutual
/-- `json.dumps(v, sort_keys=True)`: canonical serialization with recursively
sorted object keys. -/
def dumps : JVal → String
  | .null => "null"
  | .bool true => "true"
  | .bool false => "false"
  | .num n => toString n
  | .str s => jstr s
  | .arr xs => "[" ++ joinComma (dumpsList xs) ++ "]"
  | .obj kvs =>
      "\x7b" ++ joinComma ((sortPairs (dumpsEntries kvs)).map entryStr) ++ "\x7d"

/-- Serialize each element of an array. -/
def dumpsList : List JVal → List String
  | [] => []
  | x :: xs => dumps x :: dumpsList xs

/-- Serialize the value of each object entry, keeping the key. -/
def dumpsEntries : List (String × JVal) → List (String × String)
  | [] => []
  | (k, v) :: rest => (k, dumps v) :: dumpsEntries rest
end

/-- Stand-in for `hashlib.sha256(query_string.encode()).hexdigest()`: an
unspecified deterministic function of the serialized string.  The claims rely
only on the digest being a function of its input, which holds for SHA-256. -/
def hashDigest (s : String) : Nat :=
  s.data.foldl (fun a c => (a * 131 + c.toNat) % (2 ^ 64)) 5381

/-- `QueryResult._generate_hash`: hash of the canonical serialization of
`{"source_id": source_id, "parameters": parameters}` (keys sorted). -/
def generate_hash (source_id : String) (parameters : JVal) : Nat :=
  hashDigest (dumps (.obj [("source_id", .str source_id),
                           ("parameters", parameters)]))

/-! ## Map equality of JSON parameter values

Two values are `JEquiv` when they are equal as data, allowing the entries of
every object to appear in any order (entries matched by key, values compared
recursively).  For Python dicts — whose keys are unique — this is exactly
"equal as maps: same keys and values, in any insertion order, including
nested maps". -/

mutual
inductive JEquiv : JVal → JVal → Prop
  | null : JEquiv .null .null
  | bool (b : Bool) : JEquiv (.bool b) (.bool b)
  | num (n : Int) : JEquiv (.num n) (.num n)
  | str (s : String) : JEquiv (.str s) (.str s)
  | arr {xs ys : List JVal} : JEquivList xs ys → JEquiv (.arr xs) (.arr ys)
  | obj {kvs1 mid kvs2 : List (String × JVal)} :
      JEquivEntries kvs1 mid → mid.Perm kvs2 → JEquiv (.obj kvs1) (.obj kvs2)

inductive JEquivList : List JVal → List JVal → Prop
  | nil : JEquivList [] []
  | cons {x y : JVal} {xs ys : List JVal} :
      JEquiv x y → JEquivList xs ys → JEquivList (x :: xs) (y :: ys)

inductive JEquivEntries :
    List (String × JVal) → List (String × JVal) → Prop
  | nil : JEquivEntries [] []
  | cons {k : String} {v w : JVal} {l1 l2 : List (String × JVal)} :
      JEquiv v w → JEquivEntries l1 l2 → JEquivEntries ((k, v) :: l1) ((k, w) :: l2)
end


/-! ## Cache store (`models/query_result.py`)

The MongoDB `query_results` collection is modelled as an ordered list of
documents; the unique index on `query_hash` holds for stores produced by the
operations but is not assumed.  `datetime.utcnow()` enters as an explicit
`now : Nat` (seconds); the TTL index only hides documents with
`expires_at <= now` lazily, which `get` re-checks itself. -/

/-- `Config.CACHE_TTL` default (seconds). -/
def CACHE_TTL : Nat := 3600

/-- One document of the `query_results` collection. -/
structure CacheDoc where
  queryHash : Nat
  sourceId : String
  parameters : JVal
  result : JVal
  createdAt : Nat
  expiresAt : Nat
  hitCount : Nat
  queryId : Option String

/-- Mongo `update_one({"query_hash": h}, {"$set": doc}, upsert=True)`:
replace the first document with the same hash, else append. -/
def upsertDoc : List CacheDoc → CacheDoc → List CacheDoc
  | [], d => [d]
  | e :: rest, d =>
      if e.queryHash = d.queryHash then d :: rest else e :: upsertDoc rest d

/-- Python truthiness of the optional `query_id` argument
(`if query_id: cache_entry["query_id"] = query_id`): `None` and `""` are
dropped. -/
def qidField : Option String → Option String
  | some s => if s = "" then none else some s
  | none => none

/-- `QueryResult.save`: upsert the cache entry keyed by the fingerprint, with
`expires_at = now + ttl` (ttl defaulting to `Config.CACHE_TTL`) and
`hit_count` reset to 0.  Returns the new store and the query hash. -/
def qrSave (store : List CacheDoc) (now : Nat) (source_id : String)
    (parameters : JVal) (result : JVal) (ttl : Option Nat)
    (query_id : Option String) : List CacheDoc × Nat :=
  let t := ttl.getD CACHE_TTL
  let h := generate_hash source_id parameters
  let doc : CacheDoc :=
    ⟨h, source_id, parameters, result, now, now + t, 0, qidField query_id⟩
  (upsertDoc store doc, h)

/-- `$inc: {hit_count: 1}` on the first document with the given hash. -/
def incHit : List CacheDoc → Nat → List CacheDoc
  | [], _ => []
  | d :: rest, h =>
      if d.queryHash = h then { d with hitCount := d.hitCount + 1 } :: rest
      else d :: incHit rest h

/-- `find_one({"query_hash": h, "expires_at": {"$gt": now}})`. -/
def findLive (store : List CacheDoc) (h : Nat) (now : Nat) : Option CacheDoc :=
  store.find? (fun d => decide (d.queryHash = h ∧ now < d.expiresAt))

/-- `QueryResult.get`: return the cached `result` payload of the live entry
for the fingerprint, incrementing its `hit_count`; `none` on miss or when
the entry is expired (`expires_at <= now`). -/
def qrGet (store : List CacheDoc) (now : Nat) (source_id : String)
    (parameters : JVal) : List CacheDoc × Option JVal :=
  let h := generate_hash source_id parameters
  match findLive store h now with
  | some d => (incHit store h, some d.result)
  | none => (store, none)

/-- Mongo `delete_one({"query_hash": h})`: remove the first document with the
hash; returns the count removed (0 or 1). -/
def deleteOneByHash : List CacheDoc → Nat → List CacheDoc × Nat
  | [], _ => ([], 0)
  | d :: rest, h =>
      if d.queryHash = h then (rest, 1)
      else
        let (rest', c) := deleteOneByHash rest h
        (d :: rest', c)

/-- Mongo `delete_many({"source_id": src})`. -/
def deleteManyBySource (store : List CacheDoc) (src : String) :
    List CacheDoc × Nat :=
  (store.filter (fun d => !(d.sourceId == src)),
   (store.filter (fun d => d.sourceId == src)).length)

/-- `QueryResult.invalidate`: `if parameters:` is a Python truthiness test,
so both an omitted parameters argument and an empty dict take the
delete-every-entry-for-the-source branch; only a non-empty parameters dict
deletes the single fingerprinted entry. -/
def qrInvalidate (store : List CacheDoc) (source_id : String)
    (parameters : Option JVal) : List CacheDoc × Nat :=
  match parameters with
  | some p =>
      if pyTruthy p then deleteOneByHash store (generate_hash source_id p)
      else deleteManyBySource store source_id
  | none => deleteManyBySource store source_id

/-! ## Nested-payload extraction (`core/base_connector.py`)

`extract_with_jsonpath` delegates pattern matching to the external
jsonpath-ng library; its outcome enters the model as an oracle
`jp : Option (List JVal)` — `some matches` when `parse`/`find` succeed with
the given match list, `none` when the library is unavailable or parsing the
expression raises (invalid path syntax).  The dot-notation fallback
`_extract_with_fallback` is repository code and is modelled in full. -/

/-- Python `str.strip()` whitespace set (simplified to the common ASCII
whitespace characters). -/
def isPySpace (c : Char) : Bool :=
  c = ' ' || c = '\t' || c = '\n' || c = '\r' || c = '\x0b' || c = '\x0c'

/-- Python `s.strip()` on a character list. -/
def pyStrip (cs : List Char) : List Char :=
  ((cs.dropWhile isPySpace).reverse.dropWhile isPySpace).reverse

/-- Python `s.split(sep)` for a single-character separator: split at every
occurrence, keeping empty pieces. -/
def splitChar (sep : Char) : List Char → List (List Char)
  | [] => [[]]
  | c :: rest =>
      let r := splitChar sep rest
      if c = sep then [] :: r
      else
        match r with
        | [] => [[c]]
        | p :: ps => (c :: p) :: ps

/-- Python `int(s)`: optional surrounding whitespace, optional sign, one or
more digits; anything else raises `ValueError` (modelled as `none`). -/
def pyInt (cs : List Char) : Option Int :=
  let t := pyStrip cs
  let (sgn, digits) :=
    match t with
    | '-' :: rest => (-1, rest)
    | '+' :: rest => (1, rest)
    | _ => ((1 : Int), t)
  if digits.isEmpty || !digits.all Char.isDigit then none
  else some (sgn * (digits.foldl (fun a c => a * 10 + (c.toNat - '0'.toNat)) 0 : Nat))

/-- The `[` and `]` characters used by the fallback's array notation. -/
def lbrack : Char := '['
/-- See `lbrack`. -/
def rbrack : Char := ']'

/-- Strip a leading `$.` or `$` from the path, as the fallback does. -/
def stripDollar (cs : List Char) : List Char :=
  match cs with
  | '$' :: '.' :: rest => rest
  | '$' :: rest => rest
  | _ => cs

/-- The loop body of `_extract_with_fallback`: navigate `current` through the
dot-separated `parts`.  A part containing `[` takes the array branch: look up
the key before the `[`; if the value is a list, slice the bracket content
between the first `[` and the first `]` — `part.index(']')` raises an
uncaught `ValueError` when the part has no `]` (the one way extraction can
raise) — and index with Python semantics (negative indices from the end,
out-of-range and non-integer content silently ignored).  A plain part missing
from the current dict aborts with the original payload. -/
def fallbackGo (orig : JVal) : JVal → List (List Char) → Except Unit JVal
  | current, [] => .ok current
  | current, part :: rest =>
      if part.contains lbrack then
        let key := part.takeWhile (fun c => !(c = lbrack))
        let cur1 :=
          if key.isEmpty then current
          else
            match current with
            | .obj kvs =>
                match lookupJ kvs (String.mk key) with
                | some v => v
                | none => current
            | _ => current
        match cur1 with
        | .arr xs =>
            if !part.contains rbrack then .error ()
            else
              let i1 := part.findIdx (fun c => c = lbrack)
              let i2 := part.findIdx (fun c => c = rbrack)
              let content := (part.drop (i1 + 1)).take (i2 - (i1 + 1))
              if content = ['*'] then fallbackGo orig (.arr xs) rest
              else
                match pyInt content with
                | some idx =>
                    let j := if idx < 0 then idx + xs.length else idx
                    if h : 0 ≤ j ∧ j.toNat < xs.length then
                      fallbackGo orig (xs.get ⟨j.toNat, h.2⟩) rest
                    else fallbackGo orig (.arr xs) rest
                | none => fallbackGo orig (.arr xs) rest
        | other => fallbackGo orig other rest
      else
        match current with
        | .obj kvs =>
            match lookupJ kvs (String.mk part) with
            | some v => fallbackGo orig v rest
            | none => .ok orig
        | _ => .ok orig

/-- `BaseConnector._extract_with_fallback`: simple dot-notation extraction.
Non-dict payloads are returned unchanged; otherwise the cleaned path is split
on `.`, empty parts dropped, and the parts walked by `fallbackGo`. -/
def extract_with_fallback (data : JVal) (data_path : String) : Except Unit JVal :=
  match data with
  | .obj kvs =>
      let parts :=
        (splitChar '.' (stripDollar (pyStrip data_path.data))).filter
          (fun p => !p.isEmpty)
      fallbackGo (.obj kvs) (.obj kvs) parts
  | _ => .ok data

/-- `BaseConnector.extract_with_jsonpath`: zero matches return the payload
unchanged, one match is unwrapped, several matches become a list; when the
jsonpath library raises (or is unavailable), control falls to
`extract_with_fallback`, whose own exceptions propagate to the caller. -/
def extract_with_jsonpath (data : JVal) (data_path : String)
    (jp : Option (List JVal)) : Except Unit JVal :=
  match jp with
  | some [] => .ok data
  | some [v] => .ok v
  | some vs => .ok (.arr vs)
  | none => extract_with_fallback data data_path

/-! ## FBI crime connector: placeholder substitution and query parameters
(`connectors/fbi_crime/connector.py`)

`_build_request_url` partitions the declared query parameters into
hard-coded values and dynamic placeholders (`{name ...}` tokens), resolves
each placeholder from the caller-supplied `dynamic_params` (exact key first,
then the extracted name), drops unresolved placeholders with a warning, and
finally appends the API key.  We model the query-parameter side (steps 3-5
of the source); the URL-path assembly does not touch `query_params`.
Raised exceptions (a placeholder whose braces contain no token makes
`inner.split()[0]` raise `IndexError`) surface as `Except.error`. -/

/-- The `\x7b` and `\x7d` brace characters of a placeholder token. -/
def braceL : Char := Char.ofNat 123
/-- See `braceL`. -/
def braceR : Char := Char.ofNat 125

/-- `FBICrimeConnector._is_dynamic_placeholder`: the stripped string matches
`^\x7b[^\x7d]+\x7d$` — an opening brace, one or more non-closing-brace
characters, a closing brace, nothing else.  Non-strings are never
placeholders. -/
def is_dynamic_placeholder : JVal → Bool
  | .str s =>
      match pyStrip s.data with
      | c :: rest =>
          c = braceL && decide (rest.getLast? = some braceR) &&
            !rest.dropLast.isEmpty && !rest.dropLast.contains braceR
      | [] => false
  | _ => false

/-- `FBICrimeConnector._extract_param_name_from_placeholder`: strip, drop the
braces, and take the first whitespace-delimited token; raises (`IndexError`
on `split()[0]`) when the braces contain only whitespace. -/
def extract_param_name (placeholder : String) : Except Unit String :=
  let inner := ((pyStrip placeholder.data).drop 1).dropLast
  let tok := (inner.dropWhile isPySpace).takeWhile (fun c => !isPySpace c)
  if tok.isEmpty then .error () else .ok (String.mk tok)

/-- Connector configuration fields consumed by the query-parameter builder. -/
structure FBIConfig where
  baseUrl : String
  apiKey : Option String
  apiKeyParamExplicit : Bool
  apiKeyParam : String

/-- Character-list prefix test (`str.startswith`). -/
def startsWithChars : List Char → List Char → Bool
  | _, [] => true
  | [], _ :: _ => false
  | a :: as, b :: bs => a == b && startsWithChars as bs

/-- Character-list substring test (Python `needle in hay`). -/
def containsChars (hay needle : List Char) : Bool :=
  match hay with
  | [] => needle.isEmpty
  | _ :: rest => startsWithChars hay needle || containsChars rest needle

/-- Case-insensitive substring test used by the URL-dialect inference
(the connector lowercases the URL before the `in` check). -/
def containsSub (needle hay : String) : Bool :=
  containsChars (hay.data.map Char.toLower) (needle.data.map Char.toLower)

/-- `FBICrimeConnector._is_cde_endpoint`: only full URLs are inspected, for
the `/crime/fbi/cde/` segment. -/
def is_cde_endpoint (endpoint : String) : Bool :=
  let e := pyStrip endpoint.data |>.map Char.toLower
  if e.isEmpty then false
  else if startsWithChars e "http://".data || startsWithChars e "https://".data then
    containsChars e "/crime/fbi/cde/".data
  else false

/-- `FBICrimeConnector._resolve_api_key_param`: an explicitly configured
parameter name wins; otherwise CDE endpoints and CDE base URLs use
`API_KEY`, and anything else the connector-level default. -/
def resolve_api_key_param (cfg : FBIConfig) (endpoint : String) : String :=
  if cfg.apiKeyParamExplicit then cfg.apiKeyParam
  else if is_cde_endpoint endpoint || containsSub "cde" cfg.baseUrl then "API_KEY"
  else cfg.apiKeyParam

/-- The keys `_build_request_url` never copies into the query parameters. -/
def excludedKeys (cfg : FBIConfig) : List String :=
  ["endpoint", "api_key", "API_KEY", cfg.apiKeyParam, "data_path"]

/-- Dict upsert preserving insertion order: `d[k] = v`. -/
def upsertJ (kvs : List (String × JVal)) (k : String) (v : JVal) :
    List (String × JVal) :=
  match kvs with
  | [] => [(k, v)]
  | (k', v') :: rest =>
      if k' = k then (k, v) :: rest else (k', v') :: upsertJ rest k v

/-- The categorization loop of `_build_request_url`: walk the declared
parameters in order, skipping excluded keys and `None` values, splitting the
rest into hard-coded entries and dynamic placeholders (placeholder name
extraction runs here and can raise). -/
def categorizeParams (excl : List String) :
    List (String × JVal) →
      Except Unit (List (String × JVal) × List (String × String))
  | [] => .ok ([], [])
  | (k, v) :: rest =>
      if excl.contains k then categorizeParams excl rest
      else
        match v with
        | .null => categorizeParams excl rest
        | .str s =>
            if is_dynamic_placeholder (.str s) then
              match extract_param_name s with
              | .error e => .error e
              | .ok _ =>
                  match categorizeParams excl rest with
                  | .error e => .error e
                  | .ok (h, d) => .ok (h, (k, s) :: d)
            else
              match categorizeParams excl rest with
              | .error e => .error e
              | .ok (h, d) => .ok ((k, .str s) :: h, d)
        | v' =>
            match categorizeParams excl rest with
            | .error e => .error e
            | .ok (h, d) => .ok ((k, v') :: h, d)

/-- One iteration of the substitution loop: look the placeholder's value up
under the declared key first, then under the extracted placeholder name; an
unresolved placeholder leaves the parameters untouched (dropped with a
warning). -/
def substituteStep (dynamic_params acc : List (String × JVal))
    (k s : String) : List (String × JVal) :=
  match lookupJ dynamic_params k with
  | some dv => upsertJ acc k dv
  | none =>
      match extract_param_name s with
      | .ok nm =>
          match lookupJ dynamic_params nm with
          | some dv => upsertJ acc k dv
          | none => acc
      | .error _ => acc

/-- The substitution loop of `_build_request_url` over the recorded dynamic
placeholders. -/
def substituteDynamic (dynamic_params : List (String × JVal)) :
    List (String × JVal) → List (String × String) → List (String × JVal)
  | acc, [] => acc
  | acc, (k, s) :: rest =>
      substituteDynamic dynamic_params (substituteStep dynamic_params acc k s)
        rest

/-- The `endpoint` read of `_build_request_url`:
`(query.get('endpoint', '') or '').strip()`.  A non-string, non-null
endpoint would raise `AttributeError` on `.strip()`. -/
def endpointOf (query : List (String × JVal)) : Except Unit String :=
  match lookupJ query "endpoint" with
  | some (.str s) => .ok (String.mk (pyStrip s.data))
  | some .null => .ok ""
  | some _ => .error ()
  | none => .ok ""

/-- Steps 3-5 of `FBICrimeConnector._build_request_url`: the final
`query_params` dict — hard-coded values, then substituted placeholders, then
the API key (only when the configured key is truthy). -/
def build_query_params (cfg : FBIConfig) (query : List (String × JVal))
    (dynamic_params : List (String × JVal)) :
    Except Unit (List (String × JVal)) :=
  match endpointOf query with
  | .error e => .error e
  | .ok endpoint =>
      match categorizeParams (excludedKeys cfg) query with
      | .error e => .error e
      | .ok (hard, dyns) =>
          let withDyn := substituteDynamic dynamic_params hard dyns
          let akp := resolve_api_key_param cfg endpoint
          match cfg.apiKey with
          | some key =>
              if key = "" then .ok withDyn
              else .ok (upsertJ withDyn akp (.str key))
          | none => .ok withDyn

/-- Decidable form of "the placeholder's braces contain a name token" (the
precondition under which `_extract_param_name_from_placeholder` does not
raise). -/
def placeholderNameOk : JVal → Bool
  | .str s =>
      match extract_param_name s with
      | .ok _ => true
      | .error _ => false
  | _ => false

/-- Decidable form of the endpoint-read precondition of
`_build_request_url`: the declared `endpoint` value is a string, `None`, or
absent. -/
def endpointOk (query : List (String × JVal)) : Bool :=
  match lookupJ query "endpoint" with
  | some (.str _) => true
  | some .null => true
  | some _ => false
  | none => true

/-- Decidable form of "the configured API key is not itself a placeholder
token". -/
def apiKeyNotPlaceholder (cfg : FBIConfig) : Bool :=
  match cfg.apiKey with
  | some key => !is_dynamic_placeholder (.str key)
  | none => true


/-! ## Retry loops (`fbi_crime` `_execute_with_retry`, `usda_nass` `query`)

Each loop runs `for attempt in range(max_retries)`; the HTTP outcome of each
attempt enters as a list `outs` whose length is the configured
`max_retries` (the loop never looks past it).  `time.sleep` calls are
recorded in order.  The FBI loop treats a 429 specially: sleep the integer
`Retry-After` header (or `retry_delay` when absent) and `continue`; any
other non-2xx or network error is a `requests.RequestException`, backed off
with `retry_delay * 2 ** attempt` unless it was the last attempt, and after
the loop the saved `last_exception` is re-raised — `None` when no exception
was ever saved (`raise None`, a `TypeError` in Python, modelled as
`.error none`). -/

/-- Outcome of one FBI HTTP attempt. -/
inductive FBIOutcome where
  | success (body : JVal)
  | rateLimited (retryAfter : Option Nat)
  | failure (e : String)

/-- Trace of a retry loop: requests issued, sleeps performed, and the final
return or raised error. -/
structure FBITrace where
  attempts : Nat
  sleeps : List Nat
  result : Except (Option String) JVal

/-- The FBI retry loop body, one recursive step per remaining iteration. -/
def fbiRetryGo (retry_delay : Nat) (attempt : Nat) (lastExc : Option String)
    (sleeps : List Nat) : List FBIOutcome → FBITrace
  | [] => ⟨attempt, sleeps, .error lastExc⟩
  | o :: rest =>
      match o with
      | .success body => ⟨attempt + 1, sleeps, .ok body⟩
      | .rateLimited ra =>
          fbiRetryGo retry_delay (attempt + 1) lastExc
            (sleeps ++ [ra.getD retry_delay]) rest
      | .failure e =>
          if rest.isEmpty then
            fbiRetryGo retry_delay (attempt + 1) (some e) sleeps rest
          else
            fbiRetryGo retry_delay (attempt + 1) (some e)
              (sleeps ++ [retry_delay * 2 ^ attempt]) rest

/-- `FBICrimeConnector._execute_with_retry` with `max_retries = outs.length`. -/
def fbi_execute_with_retry (retry_delay : Nat) (outs : List FBIOutcome) :
    FBITrace :=
  fbiRetryGo retry_delay 0 none [] outs

/-- Outcome of one USDA HTTP attempt; the `Retry-After` header is carried on
429 responses but the USDA code never reads it. -/
inductive USDAOutcome where
  | ok200 (body : JVal)
  | status429 (retryAfter : Option Nat)
  | statusOther (code : Nat) (text : String)
  | timeout

/-- Errors the USDA `query` loop can raise. -/
inductive USDAErr where
  | apiError (code : Nat) (text : String)
  | timeoutErr
  | maxRetriesExceeded

/-- Trace of the USDA retry loop. -/
structure USDATrace where
  attempts : Nat
  sleeps : List Nat
  result : Except USDAErr JVal

/-- The USDA retry loop: a 200 returns (the body is then passed to
`transform`, modelled separately); a 429 sleeps `retry_delay * 2 ** attempt`
— exponential backoff, no `Retry-After` — and retries; a non-200, non-429
status raises `Exception("API error: ...")`, which the surrounding handler
backs off and retries, re-raising on the last attempt, and timeouts behave
the same way; a loop that never returns raises a fresh
`Exception("Max retries exceeded")`. -/
def usdaRetryGo (retry_delay : Nat) (attempt : Nat) (sleeps : List Nat) :
    List USDAOutcome → USDATrace
  | [] => ⟨attempt, sleeps, .error .maxRetriesExceeded⟩
  | o :: rest =>
      match o with
      | .ok200 body => ⟨attempt + 1, sleeps, .ok body⟩
      | .status429 _ =>
          usdaRetryGo retry_delay (attempt + 1)
            (sleeps ++ [retry_delay * 2 ^ attempt]) rest
      | .statusOther code text =>
          if rest.isEmpty then
            ⟨attempt + 1, sleeps, .error (.apiError code text)⟩
          else
            usdaRetryGo retry_delay (attempt + 1)
              (sleeps ++ [retry_delay * 2 ^ attempt]) rest
      | .timeout =>
          if rest.isEmpty then ⟨attempt + 1, sleeps, .error .timeoutErr⟩
          else
            usdaRetryGo retry_delay (attempt + 1)
              (sleeps ++ [retry_delay * 2 ^ attempt]) rest

/-- `USDANASSConnector.query`'s retry loop with `max_retries = outs.length`. -/
def usda_query_retry (retry_delay : Nat) (outs : List USDAOutcome) :
    USDATrace :=
  usdaRetryGo retry_delay 0 [] outs

/-! ## Connector manager (`core/connector_manager.py`) -/

/-- A live connector instance (opaque beyond its dispatch tag). -/
structure Conn where
  tag : String

/-- The slice of a `ConnectorConfig` document that `get_connector` and the
USDA constructor consume. -/
structure MgrConfig where
  active : Bool
  connectorType : String
  apiKey : Option String

/-- `USDANASSConnector.__init__`: raises
`ValueError("API key is required for USDA NASS connector")` when the config
carries no (truthy) `api_key`. -/
def usdaInit (cfg : MgrConfig) : Except String Conn :=
  match cfg.apiKey with
  | none => .error "API key is required for USDA NASS connector"
  | some k =>
      if k = "" then .error "API key is required for USDA NASS connector"
      else .ok ⟨"usda_nass"⟩

/-- `ConnectorManager.get_connector`.  `connectors` is the in-memory cache,
`config` the result of `config_model.get_by_source_id`, `loadClass` the
(possibly failing) dynamic class load keyed by `connector_type`, and
`connect` the instance's `connect()` boolean.  A constructor that raises
(`connector_class(config)`) is not caught here, so the exception propagates
to the caller as `.error`. -/
def get_connector (connectors : List (String × Conn)) (source_id : String)
    (config : Option MgrConfig)
    (loadClass : String → Option (MgrConfig → Except String Conn))
    (connect : Conn → Bool) : Except String (Option Conn) :=
  match connectors.find? (fun kv => kv.1 == source_id) with
  | some kv => .ok (some kv.2)
  | none =>
      match config with
      | some cfg =>
          if cfg.active then
            match loadClass cfg.connectorType with
            | some ctor =>
                match ctor cfg with
                | .ok conn =>
                    if connect conn then .ok (some conn) else .ok none
                | .error e => .error e
            | none => .ok none
          else .ok none
      | none => .ok none

/-! ## Transforms (`fbi_crime` / `usda_nass` `transform`) -/

/-- The standardized transform output: `metadata.record_count`, the `data`
records, and the inferred `schema.fields` as `(name, type)` pairs. -/
structure TransformResult where
  recordCount : Nat
  data : JVal
  schemaFields : List (String × String)

/-- The field type the FBI schema builder infers for a value.  CPython's
`isinstance(value, (int, float))` is checked before the `bool` branch and
`bool` is a subclass of `int`, so booleans are typed `"number"` and the
`elif isinstance(value, bool)` branch is dead code. -/
def fbiFieldType : JVal → String
  | .num _ => "number"
  | .bool _ => "number"
  | .obj _ => "object"
  | .arr _ => "array"
  | _ => "string"

/-- `FBICrimeConnector._create_schema_from_records`: fields of the first
record when it is a dict, else no fields. -/
def fbi_create_schema_from_records (records : List JVal) :
    List (String × String) :=
  match records with
  | .obj kvs :: _ => kvs.map (fun kv => (kv.1, fbiFieldType kv.2))
  | _ => []

/-- `FBICrimeConnector.transform`: a dict is read through its `results` key,
then its `data` key, else wrapped whole as a single record; a bare list is
taken as the records; a scalar becomes `[{"value": payload}]`; a non-list
extraction result is wrapped in a singleton list.  `record_count` is the
length of the final record list. -/
def fbiTransform (data : JVal) : TransformResult :=
  let records0 : JVal :=
    match data with
    | .obj kvs =>
        match lookupJ kvs "results" with
        | some r => r
        | none =>
            match lookupJ kvs "data" with
            | some d => d
            | none => .arr [.obj kvs]
    | .arr xs => .arr xs
    | v => .arr [.obj [("value", v)]]
  let records : List JVal :=
    match records0 with
    | .arr xs => xs
    | v => [v]
  ⟨records.length, .arr records, fbi_create_schema_from_records records⟩

/-- The field type the USDA schema builder infers (same dead `bool` branch
as the FBI builder; no dict/list cases). -/
def usdaFieldType : JVal → String
  | .num _ => "number"
  | .bool _ => "number"
  | _ => "string"

/-- `USDANASSConnector._infer_schema`: reads `records[0].items()`; raises
when the records are not a list of dicts (`records[0]` on a dict needs key
`0`, `.items()` on a scalar has no such attribute). -/
def usda_infer_schema (records : JVal) : Except Unit (List (String × String)) :=
  match records with
  | .arr (.obj kvs :: _) => .ok (kvs.map (fun kv => (kv.1, usdaFieldType kv.2)))
  | _ => .error ()

/-- `USDANASSConnector.transform`: only a dict bearing a `data` key or a
bare list yield records; anything else — including a scalar and a dict with
only a `results` key — yields an empty record list.  `len(records)` and the
truthiness-guarded `_infer_schema` raise on shapes outside `len`'s and the
schema builder's domains. -/
def usdaTransform (data : JVal) : Except Unit TransformResult :=
  let records : JVal :=
    match data with
    | .obj kvs =>
        match lookupJ kvs "data" with
        | some d => d
        | none => .arr []
    | .arr xs => .arr xs
    | _ => .arr []
  match pyLen records with
  | .error e => .error e
  | .ok n =>
      match (if pyTruthy records then usda_infer_schema records
             else .ok []) with
      | .error e => .error e
      | .ok fields => .ok ⟨n, records, fields⟩

/-! ## Query engine (`core/query_engine.py`) and cache manager
(`core/cache_manager.py`) -/

/-- `CacheManager.get`: delegate to `QueryResult.get`, then `if result:` —
a Python truthiness test — so a cached falsy payload (empty dict or list)
is reported as a miss even though the model already counted the hit. -/
def cm_get (store : List CacheDoc) (now : Nat) (source_id : String)
    (parameters : JVal) : List CacheDoc × Option JVal :=
  let (s', r) := qrGet store now source_id parameters
  match r with
  | some v => if pyTruthy v then (s', some v) else (s', none)
  | none => (s', none)

/-- The connector manager's `query` result seen by the engine: a structured
success/failure dict, or an exception escaping `connector_manager.query`
(e.g. the `ValueError` for an unavailable connector). -/
inductive ConnOutcome where
  | success (d : JVal)
  | failure (e : String)
  | raised (e : String)

/-- The engine-level result dict (absent keys modelled as `none`). -/
structure EngineResult where
  success : Bool
  source : Option String
  data : Option JVal
  error : Option String
  sourceId : Option String
  queryId : Option String

/-- The connector branch of `execute_query`: on success, write through to
the cache (when caching is on) and tag `source="connector"`; structured
failures pass through; exceptions become a structured error result. -/
def executeQueryConnector (store : List CacheDoc) (now : Nat)
    (source_id : String) (parameters : JVal) (useCache : Bool)
    (conn : ConnOutcome) (query_id : Option String) :
    List CacheDoc × EngineResult :=
  match conn with
  | .success d =>
      let store' :=
        if useCache then
          (qrSave store now source_id parameters d none query_id).1
        else store
      (store', ⟨true, some "connector", some d, none, some source_id,
                qidField query_id⟩)
  | .failure e =>
      (store, ⟨false, none, none, some e, some source_id, qidField query_id⟩)
  | .raised e =>
      (store, ⟨false, none, none, some e, some source_id, qidField query_id⟩)

/-- `QueryEngine.execute_query`: cache-first.  The hit test is
`if cached_result:` on the payload returned by `CacheManager.get`, so only a
truthy cached payload is served from cache (tagged `source="cache"`); every
other path goes to the connector branch. -/
def execute_query (store : List CacheDoc) (now : Nat) (source_id : String)
    (parameters : JVal) (useCache : Bool) (conn : ConnOutcome)
    (query_id : Option String) : List CacheDoc × EngineResult :=
  if useCache then
    let (s1, cached) := cm_get store now source_id parameters
    match cached with
    | some d =>
        (s1, ⟨true, some "cache", some d, none, none, qidField query_id⟩)
    | none => executeQueryConnector s1 now source_id parameters useCache conn query_id
  else executeQueryConnector store now source_id parameters useCache conn query_id


/-! ## Theorems -/

theorem char_toNat_inj {a b : Char} (h : a.toNat = b.toNat) : a = b := by
  apply Char.ext
  unfold Char.toNat at h
  exact UInt32.toNat.inj h

theorem charListLt_asymm :
    ∀ {a b : List Char}, charListLt a b = true → charListLt b a = false := by
  intro a
  induction a with
  | nil => intro b h; cases b <;> simp [charListLt] at h ⊢
  | cons x as ih =>
      intro b h
      cases b with
      | nil => simp [charListLt] at h
      | cons y bs =>
          simp only [charListLt] at h ⊢
          by_cases h1 : x.toNat < y.toNat
          · simp [h1] at h ⊢; omega
          · by_cases h2 : y.toNat < x.toNat
            · simp [h1, h2] at h
            · simp [h1, h2] at h ⊢
              exact ih h

theorem charListLt_total :
    ∀ {a b : List Char}, charListLt a b = false → charListLt b a = false →
      a = b := by
  intro a
  induction a with
  | nil =>
      intro b h1 h2
      cases b with
      | nil => rfl
      | cons y bs => simp [charListLt] at h1
  | cons x as ih =>
      intro b h1 h2
      cases b with
      | nil => simp [charListLt] at h2
      | cons y bs =>
          simp only [charListLt] at h1 h2
          by_cases hlt : x.toNat < y.toNat
          · simp [hlt] at h1
          · by_cases hgt : y.toNat < x.toNat
            · simp [hgt, Nat.lt_asymm hgt] at h2
            · simp [hlt, hgt] at h1 h2
              have : x = y := char_toNat_inj (by omega)
              rw [this, ih h1 h2]

theorem charListLt_trans :
    ∀ {a b c : List Char}, charListLt a b = true → charListLt b c = true →
      charListLt a c = true := by
  intro a
  induction a with
  | nil =>
      intro b c h1 h2
      cases b with
      | nil => simp [charListLt] at h1
      | cons y bs =>
          cases c with
          | nil => simp [charListLt] at h2
          | cons z cs => simp [charListLt]
  | cons x as ih =>
      intro b c h1 h2
      cases b with
      | nil => simp [charListLt] at h1
      | cons y bs =>
          cases c with
          | nil => simp [charListLt] at h2
          | cons z cs =>
              simp only [charListLt] at h1 h2 ⊢
              by_cases hxy : x.toNat < y.toNat
              · by_cases hyz : y.toNat < z.toNat
                · simp [show x.toNat < z.toNat from by omega]
                · by_cases hzy : z.toNat < y.toNat
                  · simp [hyz, hzy] at h2
                  · have : y.toNat = z.toNat := by omega
                    simp [show x.toNat < z.toNat from by omega]
              · by_cases hyx : y.toNat < x.toNat
                · simp [hxy, hyx] at h1
                · have hxy' : x.toNat = y.toNat := by omega
                  by_cases hyz : y.toNat < z.toNat
                  · simp [show x.toNat < z.toNat from by omega]
                  · by_cases hzy : z.toNat < y.toNat
                    · simp [hyz, hzy] at h2
                    · simp [hxy, hyx] at h1
                      simp [hyz, hzy] at h2
                      simp [show ¬ x.toNat < z.toNat from by omega,
                        show ¬ z.toNat < x.toNat from by omega]
                      exact ih h1 h2

theorem string_data_inj {a b : String} (h : a.data = b.data) : a = b := by
  cases a; cases b; exact congrArg String.mk h

theorem strLt_total {a b : String} (h1 : strLt a b = false)
    (h2 : strLt b a = false) : a = b :=
  string_data_inj (charListLt_total h1 h2)

theorem strLt_asymm {a b : String} (h : strLt a b = true) :
    strLt b a = false :=
  charListLt_asymm h

theorem strLt_trans {a b c : String} (h1 : strLt a b = true)
    (h2 : strLt b c = true) : strLt a c = true :=
  charListLt_trans h1 h2

theorem strLt_irrefl (a : String) : strLt a a = false := by
  cases h : strLt a a
  · rfl
  · have h2 := strLt_asymm h
    rw [h] at h2
    exact h2

instance : IsTotal (String × String) entryLe where
  total a b := by
    unfold entryLe
    by_cases h1 : strLt a.1 b.1 = true
    · exact Or.inl (Or.inl h1)
    · by_cases h2 : strLt b.1 a.1 = true
      · exact Or.inr (Or.inl h2)
      · have h1' : strLt a.1 b.1 = false := by simpa using h1
        have h2' : strLt b.1 a.1 = false := by simpa using h2
        have he : a.1 = b.1 := strLt_total h1' h2'
        by_cases h3 : strLt b.2 a.2 = true
        · refine Or.inr (Or.inr ⟨he.symm, ?_⟩)
          unfold strLe
          rw [strLt_asymm h3]
          rfl
        · refine Or.inl (Or.inr ⟨he, ?_⟩)
          have h3' : strLt b.2 a.2 = false := by simpa using h3
          unfold strLe
          rw [h3']
          rfl

theorem strLe_eq_false_iff {a b : String} :
    strLe a b = true ↔ strLt b a = false := by
  unfold strLe
  cases strLt b a <;> simp

instance : IsTrans (String × String) entryLe where
  trans a b c hab hbc := by
    unfold entryLe at *
    rcases hab with h1 | ⟨h1, h1'⟩ <;> rcases hbc with h2 | ⟨h2, h2'⟩
    · exact Or.inl (strLt_trans h1 h2)
    · exact Or.inl (h2 ▸ h1)
    · exact Or.inl (h1 ▸ h2)
    · refine Or.inr ⟨h1.trans h2, ?_⟩
      have h1'' := strLe_eq_false_iff.mp h1'
      have h2'' := strLe_eq_false_iff.mp h2'
      refine strLe_eq_false_iff.mpr ?_
      by_cases h3 : strLt c.2 a.2 = true
      · exfalso
        by_cases h4 : strLt b.2 c.2 = true
        · have := strLt_trans h4 h3
          rw [h1''] at this
          exact absurd this (by simp)
        · have h4' : strLt b.2 c.2 = false := by simpa using h4
          have hbc2 : b.2 = c.2 := strLt_total h4' h2''
          rw [← hbc2] at h3
          rw [h1''] at h3
          exact absurd h3 (by simp)
      · simpa using h3

instance : IsAntisymm (String × String) entryLe where
  antisymm a b hab hba := by
    unfold entryLe at *
    rcases hab with h1 | ⟨h1, h1'⟩ <;> rcases hba with h2 | ⟨h2, h2'⟩
    · have := strLt_asymm h1
      rw [h2] at this
      exact absurd this (by simp)
    · rw [h2] at h1
      rw [strLt_irrefl a.1] at h1
      exact absurd h1 (by simp)
    · rw [h1] at h2
      rw [strLt_irrefl b.1] at h2
      exact absurd h2 (by simp)
    · have h1'' := strLe_eq_false_iff.mp h1'
      have h2'' := strLe_eq_false_iff.mp h2'
      exact Prod.ext h1 (strLt_total h2'' h1'')


theorem dumpsEntries_eq_map (l : List (String × JVal)) :
    dumpsEntries l = l.map (fun kv => (kv.1, dumps kv.2)) := by
  induction l with
  | nil => rfl
  | cons kv rest ih => cases kv; simp [dumpsEntries, ih]

theorem sortPairs_eq_of_perm {l1 l2 : List (String × String)} (h : l1.Perm l2) :
    sortPairs l1 = sortPairs l2 := by
  unfold sortPairs
  exact List.eq_of_perm_of_sorted
    (((List.perm_insertionSort entryLe l1).trans h).trans
      (List.perm_insertionSort entryLe l2).symm)
    (List.sorted_insertionSort entryLe l1)
    (List.sorted_insertionSort entryLe l2)

mutual
/-- Canonical serialization is invariant under map equality. -/
theorem dumps_equiv : ∀ {a b : JVal}, JEquiv a b → dumps a = dumps b
  | _, _, .null => rfl
  | _, _, .bool _ => rfl
  | _, _, .num _ => rfl
  | _, _, .str _ => rfl
  | _, _, .arr h => by
      simp only [dumps]
      rw [dumpsList_equiv h]
  | _, _, @JEquiv.obj kvs1 mid kvs2 h hp => by
      have e1 : dumpsEntries kvs1 = dumpsEntries mid := dumpsEntries_equiv h
      have e2 : (dumpsEntries mid).Perm (dumpsEntries kvs2) := by
        rw [dumpsEntries_eq_map, dumpsEntries_eq_map]
        exact hp.map _
      simp only [dumps]
      rw [sortPairs_eq_of_perm (e1 ▸ e2)]

theorem dumpsList_equiv :
    ∀ {xs ys : List JVal}, JEquivList xs ys → dumpsList xs = dumpsList ys
  | _, _, .nil => rfl
  | _, _, .cons h hs => by
      simp only [dumpsList]
      rw [dumps_equiv h, dumpsList_equiv hs]

theorem dumpsEntries_equiv :
    ∀ {l1 l2 : List (String × JVal)}, JEquivEntries l1 l2 →
      dumpsEntries l1 = dumpsEntries l2
  | _, _, .nil => rfl
  | _, _, .cons h hs => by
      simp only [dumpsEntries]
      rw [dumps_equiv h, dumpsEntries_equiv hs]
end
/-- C1. Fingerprint determinism: for every source id and every pair of
parameter maps equal as maps (same keys and values in any insertion order,
nested maps included), `QueryResult._generate_hash` produces the same cache
fingerprint, because `json.dumps(..., sort_keys=True)` canonicalizes the
serialization before hashing. -/
theorem fingerprint_deterministic (src : String) (p1 p2 : JVal)
    (h : JEquiv p1 p2) : generate_hash src p1 = generate_hash src p2 := by
  unfold generate_hash
  congr 1
  exact dumps_equiv
    (JEquiv.obj
      (JEquivEntries.cons (JEquiv.str src)
        (JEquivEntries.cons h JEquivEntries.nil))
      (List.Perm.refl _))

/-- Witness for C1 at concrete reordered nested maps. -/
theorem fingerprint_deterministic_witness :
    JEquiv (.obj [("b", .num 1), ("a", .obj [("y", .str "x"), ("z", .num 2)])])
           (.obj [("a", .obj [("z", .num 2), ("y", .str "x")]), ("b", .num 1)])
    ∧ generate_hash "census"
        (.obj [("b", .num 1), ("a", .obj [("y", .str "x"), ("z", .num 2)])])
      = generate_hash "census"
        (.obj [("a", .obj [("z", .num 2), ("y", .str "x")]), ("b", .num 1)]) := by
  have hinner :
      JEquiv (JVal.obj [("y", JVal.str "x"), ("z", JVal.num 2)])
             (JVal.obj [("z", JVal.num 2), ("y", JVal.str "x")]) :=
    JEquiv.obj
      (JEquivEntries.cons (JEquiv.str "x")
        (JEquivEntries.cons (JEquiv.num 2) JEquivEntries.nil))
      (List.Perm.swap ("z", JVal.num 2) ("y", JVal.str "x") [])
  have h :
      JEquiv (JVal.obj [("b", JVal.num 1),
                        ("a", JVal.obj [("y", JVal.str "x"), ("z", JVal.num 2)])])
             (JVal.obj [("a", JVal.obj [("z", JVal.num 2), ("y", JVal.str "x")]),
                        ("b", JVal.num 1)]) :=
    JEquiv.obj
      (JEquivEntries.cons (JEquiv.num 1)
        (JEquivEntries.cons hinner JEquivEntries.nil))
      (List.Perm.swap ("a", JVal.obj [("z", JVal.num 2), ("y", JVal.str "x")]) ("b", JVal.num 1) [])
  exact ⟨h, fingerprint_deterministic "census" _ _ h⟩

theorem findLive_upsert (store : List CacheDoc) (doc : CacheDoc) (now : Nat)
    (h : now < doc.expiresAt) :
    findLive (upsertDoc store doc) doc.queryHash now = some doc := by
  induction store with
  | nil => simp [upsertDoc, findLive, List.find?, h]
  | cons e rest ih =>
      by_cases he : e.queryHash = doc.queryHash
      · simp [upsertDoc, he, findLive, List.find?, h]
      · simpa [upsertDoc, he, findLive, List.find?] using ih

theorem findLive_expired (store : List CacheDoc) (h now : Nat)
    (hexp : ∀ d ∈ store, d.queryHash = h → d.expiresAt ≤ now) :
    findLive store h now = none := by
  induction store with
  | nil => rfl
  | cons e rest ih =>
      have he : decide (e.queryHash = h ∧ now < e.expiresAt) = false := by
        by_cases hq : e.queryHash = h
        · have := hexp e (List.mem_cons_self e rest) hq
          simp [hq]; omega
        · simp [hq]
      simp only [findLive, List.find?, he]
      exact ih (fun d hd => hexp d (List.mem_cons_of_mem e hd))

/-- C2. Cache round-trip and expiry: a `save` followed by a `get` at any
read time strictly before `expires_at = now + ttl` returns the stored result
unchanged; and whenever every entry carrying the query's fingerprint has
`expires_at <= now` at read time, `get` returns none — the expired entry is
invisible even while still physically present. -/
theorem cache_round_trip_and_expiry :
    (∀ (store : List CacheDoc) (now : Nat) (src : String) (p r : JVal)
        (ttl : Nat) (qid : Option String) (readTime : Nat),
        readTime < now + ttl →
        (qrGet (qrSave store now src p r (some ttl) qid).1 readTime src p).2
          = some r)
    ∧ (∀ (store : List CacheDoc) (now : Nat) (src : String) (p : JVal),
        (∀ d ∈ store, d.queryHash = generate_hash src p → d.expiresAt ≤ now) →
        (qrGet store now src p).2 = none) := by
  constructor
  · intro store now src p r ttl qid readTime hrt
    have := findLive_upsert store
      ⟨generate_hash src p, src, p, r, now, now + ttl, 0, qidField qid⟩
      readTime hrt
    simp [qrSave, qrGet, this]
  · intro store now src p hexp
    simp [qrGet, findLive_expired store (generate_hash src p) now hexp]

/-- Witness for C2: fresh entry read before expiry returns the payload; an
empty store (vacuously all-expired) misses. -/
theorem cache_round_trip_and_expiry_witness :
    (qrGet (qrSave [] 0 "s" (.obj []) (.num 42) (some 10) none).1 5 "s"
        (.obj [])).2 = some (.num 42)
    ∧ (qrGet [] 0 "s" (.obj [])).2 = none :=
  ⟨cache_round_trip_and_expiry.1 [] 0 "s" (.obj []) (.num 42) 10 none 5
      (by decide),
   cache_round_trip_and_expiry.2 [] 0 "s" (.obj [])
      (fun d hd => absurd hd (List.not_mem_nil d))⟩

theorem deleteOne_not_found (store : List CacheDoc) (h : Nat)
    (hn : ∀ d ∈ store, d.queryHash ≠ h) :
    deleteOneByHash store h = (store, 0) := by
  induction store with
  | nil => rfl
  | cons e rest ih =>
      have he : e.queryHash ≠ h := hn e (List.mem_cons_self e rest)
      simp [deleteOneByHash, he,
        ih (fun d hd => hn d (List.mem_cons_of_mem e hd))]

/-- C9. Cache invalidation truthiness: `invalidate(src, {})` takes the
`delete_many` branch — the presence test `if parameters:` is a truthiness
test and an empty dict is falsy — so it deletes every entry of the source
rather than the single entry fingerprinted by `(src, {})`; and invalidating
a fingerprint with no matching entry returns count 0 without error. -/
theorem invalidate_truthiness_and_idempotence :
    (∀ (store : List CacheDoc) (src : String),
        qrInvalidate store src (some (.obj [])) = deleteManyBySource store src
        ∧ (∀ d ∈ (qrInvalidate store src (some (.obj []))).1, d.sourceId ≠ src)
        ∧ (qrInvalidate store src (some (.obj []))).2
            = (store.filter (fun d => d.sourceId == src)).length)
    ∧ (∀ (store : List CacheDoc) (src : String) (p : JVal),
        pyTruthy p = true →
        (∀ d ∈ store, d.queryHash ≠ generate_hash src p) →
        qrInvalidate store src (some p) = (store, 0)) := by
  constructor
  · intro store src
    refine ⟨rfl, ?_, rfl⟩
    intro d hd
    have := (List.mem_filter.mp hd).2
    simpa using this
  · intro store src p hp hn
    simp only [qrInvalidate, hp, if_pos rfl]
    exact deleteOne_not_found store (generate_hash src p) hn

/-- Witness for C9 on a concrete two-source store: the empty-dict call wipes
both entries of source `s` (count 2, not 1), and a missing fingerprint
deletes nothing. -/
theorem invalidate_truthiness_and_idempotence_witness :
    (qrInvalidate
        [⟨1, "s", .null, .num 1, 0, 10, 0, none⟩,
         ⟨2, "s", .null, .num 2, 0, 10, 0, none⟩,
         ⟨3, "t", .null, .num 3, 0, 10, 0, none⟩] "s" (some (.obj []))).2 = 2
    ∧ qrInvalidate
        [⟨1, "s", .null, .num 1, 0, 10, 0, none⟩] "s"
        (some (.obj [("a", .num 1)]))
      = ([⟨1, "s", .null, .num 1, 0, 10, 0, none⟩], 0) := by
  constructor
  · rw [(invalidate_truthiness_and_idempotence.1
      [⟨1, "s", .null, .num 1, 0, 10, 0, none⟩,
       ⟨2, "s", .null, .num 2, 0, 10, 0, none⟩,
       ⟨3, "t", .null, .num 3, 0, 10, 0, none⟩] "s").2.2]
    rfl
  · exact invalidate_truthiness_and_idempotence.2
      [⟨1, "s", .null, .num 1, 0, 10, 0, none⟩] "s" (.obj [("a", .num 1)])
      (by decide) (by decide)

theorem cm_get_truthy {store : List CacheDoc} {now : Nat} {src : String}
    {p : JVal} {d : JVal} (h : (cm_get store now src p).2 = some d) :
    pyTruthy d = true := by
  unfold cm_get at h
  rcases hq : qrGet store now src p with ⟨s1, r1⟩
  rw [hq] at h
  rcases r1 with _ | v
  · simp at h
  · by_cases ht : pyTruthy v = true
    · simp [ht] at h
      rw [← h]
      exact ht
    · have ht' : pyTruthy v = false := by simpa using ht
      simp [ht'] at h

/-- C10. Cache-first truthiness: when the live cache entry for a query holds
a falsy payload (empty dict/list), `execute_query` with caching enabled
behaves exactly as on a cache miss — the connector branch runs — because the
hit tests in `CacheManager.get` and `execute_query` are Python truthiness
tests on the payload; consequently a result served from cache is always
truthy, so an empty result is never effectively served from cache. -/
theorem empty_cache_payload_not_served :
    (∀ (store : List CacheDoc) (now : Nat) (src : String) (p : JVal)
        (conn : ConnOutcome) (qid : Option String) (v : JVal),
        (qrGet store now src p).2 = some v → pyTruthy v = false →
        execute_query store now src p true conn qid
          = executeQueryConnector (qrGet store now src p).1 now src p true
              conn qid)
    ∧ (∀ (store : List CacheDoc) (now : Nat) (src : String) (p : JVal)
        (useCache : Bool) (conn : ConnOutcome) (qid : Option String) (d : JVal),
        (execute_query store now src p useCache conn qid).2.source
            = some "cache" →
        (execute_query store now src p useCache conn qid).2.data = some d →
        pyTruthy d = true) := by
  constructor
  · intro store now src p conn qid v hv hfalsy
    rcases hq2 : qrGet store now src p with ⟨s1, r1⟩
    rw [hq2] at hv
    simp at hv
    subst hv
    unfold execute_query cm_get
    rw [hq2]
    simp [hfalsy]
  · intro store now src p useCache conn qid d hsrc hdata
    cases useCache with
    | false =>
        exfalso
        unfold execute_query executeQueryConnector at hsrc
        cases conn <;> simp at hsrc
    | true =>
        unfold execute_query at hsrc hdata
        rcases hcg : cm_get store now src p with ⟨s1, r1⟩
        rw [hcg] at hsrc hdata
        rcases r1 with _ | w
        · exfalso
          unfold executeQueryConnector at hsrc
          cases conn <;> simp at hsrc
        · simp at hdata
          rw [← hdata]
          exact cm_get_truthy (by rw [hcg])

/-- Witness for C10: a live entry caching the empty dict is bypassed (the
result is connector-tagged), and a cache-served result is truthy. -/
theorem empty_cache_payload_not_served_witness :
    execute_query
        [⟨generate_hash "s" (.obj []), "s", .obj [], .obj [], 0, 100, 0, none⟩]
        5 "s" (.obj []) true (.success (.num 3)) none
      = executeQueryConnector
          (qrGet [⟨generate_hash "s" (.obj []), "s", .obj [], .obj [], 0, 100,
                   0, none⟩] 5 "s" (.obj [])).1
          5 "s" (.obj []) true (.success (.num 3)) none
    ∧ pyTruthy (.num 7) = true :=
  ⟨empty_cache_payload_not_served.1
      [⟨generate_hash "s" (.obj []), "s", .obj [], .obj [], 0, 100, 0, none⟩]
      5 "s" (.obj []) (.success (.num 3)) none (.obj []) rfl rfl,
   empty_cache_payload_not_served.2
      [⟨generate_hash "s" (.obj []), "s", .obj [], .num 7, 0, 100, 0, none⟩]
      5 "s" (.obj []) true (.success (.num 3)) none (.num 7) rfl rfl⟩

/-- Counterexample to C7 as stated: with an active `usda_nass` configuration
lacking an API key, `get_connector` calls `connector_class(config)` outside
any try/except, the USDA constructor raises `ValueError`, and the exception
propagates to the caller instead of `None` being returned. -/
theorem get_connector_raises_counterexample :
    get_connector [] "usda" (some ⟨true, "usda_nass", none⟩)
        (fun t => if t = "usda_nass" then some usdaInit else none)
        (fun _ => true)
      = .error "API key is required for USDA NASS connector" := rfl

/-- C7 (amended). `get_connector` returns a connector or none and never
raises when the configuration is missing, inactive, of unknown connector
type, or when `connect()` fails — but an exception raised while constructing
the connector from its configuration (e.g. the USDA connector's missing-API-
key `ValueError`) propagates to the caller. -/
theorem get_connector_totality_amended :
    (∀ (connectors : List (String × Conn)) (src : String)
        (loadClass : String → Option (MgrConfig → Except String Conn))
        (connect : Conn → Bool),
        connectors.find? (fun kv => kv.1 == src) = none →
        get_connector connectors src none loadClass connect = .ok none)
    ∧ (∀ connectors src (cfg : MgrConfig) loadClass connect,
        connectors.find? (fun kv => kv.1 == src) = none →
        cfg.active = false →
        get_connector connectors src (some cfg) loadClass connect = .ok none)
    ∧ (∀ connectors src (cfg : MgrConfig) loadClass connect,
        connectors.find? (fun kv => kv.1 == src) = none →
        cfg.active = true → loadClass cfg.connectorType = none →
        get_connector connectors src (some cfg) loadClass connect = .ok none)
    ∧ (∀ connectors src (cfg : MgrConfig) loadClass connect ctor c,
        connectors.find? (fun kv => kv.1 == src) = none →
        cfg.active = true → loadClass cfg.connectorType = some ctor →
        ctor cfg = .ok c →
        get_connector connectors src (some cfg) loadClass connect
          = .ok (if connect c then some c else none))
    ∧ (∀ connectors src (cfg : MgrConfig) loadClass connect ctor e,
        connectors.find? (fun kv => kv.1 == src) = none →
        cfg.active = true → loadClass cfg.connectorType = some ctor →
        ctor cfg = .error e →
        get_connector connectors src (some cfg) loadClass connect = .error e)
    ∧ (∀ connectors src cfg loadClass connect kv,
        connectors.find? (fun kv2 => kv2.1 == src) = some kv →
        get_connector connectors src cfg loadClass connect
          = .ok (some kv.2)) := by
  refine ⟨?_, ?_, ?_, ?_, ?_, ?_⟩
  · intro connectors src loadClass connect hf
    unfold get_connector
    rw [hf]
  · intro connectors src cfg loadClass connect hf ha
    unfold get_connector
    rw [hf]
    simp [ha]
  · intro connectors src cfg loadClass connect hf ha hl
    unfold get_connector
    rw [hf]
    simp [ha, hl]
  · intro connectors src cfg loadClass connect ctor c hf ha hl hc
    unfold get_connector
    rw [hf]
    simp [ha, hl, hc]
    by_cases h : connect c = true <;> simp [h]
  · intro connectors src cfg loadClass connect ctor e hf ha hl hc
    unfold get_connector
    rw [hf]
    simp [ha, hl, hc]
  · intro connectors src cfg loadClass connect kv hf
    unfold get_connector
    rw [hf]

/-- Witness for the amended C7 at concrete inputs: an inactive config yields
none; a failing `connect()` yields none; a successful path yields the
instance. -/
theorem get_connector_totality_amended_witness :
    get_connector [] "u" (some ⟨false, "usda_nass", some "K"⟩)
        (fun t => if t = "usda_nass" then some usdaInit else none)
        (fun _ => true) = .ok none
    ∧ get_connector [] "u" (some ⟨true, "usda_nass", some "K"⟩)
        (fun t => if t = "usda_nass" then some usdaInit else none)
        (fun _ => false) = .ok none
    ∧ get_connector [] "u" (some ⟨true, "usda_nass", some "K"⟩)
        (fun t => if t = "usda_nass" then some usdaInit else none)
        (fun _ => true) = .ok (some ⟨"usda_nass"⟩) := by
  refine ⟨?_, ?_, ?_⟩
  · exact get_connector_totality_amended.2.1 [] "u" ⟨false, "usda_nass", some "K"⟩
      (fun t => if t = "usda_nass" then some usdaInit else none)
      (fun _ => true) rfl rfl
  · exact get_connector_totality_amended.2.2.2.1 [] "u"
      ⟨true, "usda_nass", some "K"⟩
      (fun t => if t = "usda_nass" then some usdaInit else none)
      (fun _ => false) usdaInit ⟨"usda_nass"⟩ rfl rfl rfl rfl
  · exact get_connector_totality_amended.2.2.2.1 [] "u"
      ⟨true, "usda_nass", some "K"⟩
      (fun t => if t = "usda_nass" then some usdaInit else none)
      (fun _ => true) usdaInit ⟨"usda_nass"⟩ rfl rfl rfl rfl

/-- Counterexample to C4 as stated: with the syntactically invalid path
`$.items[0` (unclosed bracket — the jsonpath parse raises, modelled by the
`none` oracle) over `{"items": [1, 2]}`, the fallback extractor's
`part.index(']')` raises an uncaught `ValueError`, so extraction raises to
the caller rather than returning the original payload. -/
theorem extraction_raises_counterexample :
    extract_with_jsonpath (.obj [("items", .arr [.num 1, .num 2])])
        "$.items[0" none
      = .error () := rfl

theorem fallbackGo_no_bracket_ok (orig : JVal) :
    ∀ (parts : List (List Char)) (current : JVal),
      (∀ p ∈ parts, p.contains lbrack = false) →
      ∃ v, fallbackGo orig current parts = .ok v := by
  intro parts
  induction parts with
  | nil => intro current _; exact ⟨current, rfl⟩
  | cons part rest ih =>
      intro current hnb
      have hpart : part.contains lbrack = false :=
        hnb part (List.mem_cons_self part rest)
      have hrest : ∀ p ∈ rest, p.contains lbrack = false :=
        fun p hp => hnb p (List.mem_cons_of_mem part hp)
      unfold fallbackGo
      rw [hpart]
      simp only [Bool.false_eq_true, if_false]
      cases current with
      | obj kvs =>
          cases h : lookupJ kvs (String.mk part) with
          | none => exact ⟨orig, by simp [h]⟩
          | some v =>
              obtain ⟨w, hw⟩ := ih v hrest
              exact ⟨w, by simp [h]; exact hw⟩
      | null => exact ⟨orig, rfl⟩
      | bool b => exact ⟨orig, rfl⟩
      | num n => exact ⟨orig, rfl⟩
      | str s => exact ⟨orig, rfl⟩
      | arr xs => exact ⟨orig, rfl⟩

/-- C4 (amended). Extraction policy: zero matches return the payload
unchanged; exactly one match is returned unwrapped; several matches are
returned as a list; a non-dict payload passes through the fallback
unchanged; and when the jsonpath library raises (invalid path syntax) the
result is the dot-notation fallback extraction — which cannot raise as long
as no path segment contains a `[`, but is a best-effort extractor rather
than a guaranteed return of the original payload (and its unmatched-`[`
`ValueError` escapes to the caller, per the counterexample). -/
theorem extraction_policy_amended :
    (∀ (data : JVal) (path : String),
        extract_with_jsonpath data path (some []) = .ok data)
    ∧ (∀ (data : JVal) (path : String) (v : JVal),
        extract_with_jsonpath data path (some [v]) = .ok v)
    ∧ (∀ (data : JVal) (path : String) (v1 v2 : JVal) (vs : List JVal),
        extract_with_jsonpath data path (some (v1 :: v2 :: vs))
          = .ok (.arr (v1 :: v2 :: vs)))
    ∧ (∀ (data : JVal) (path : String),
        extract_with_jsonpath data path none = extract_with_fallback data path)
    ∧ (∀ (data : JVal) (path : String),
        (∀ p ∈ (splitChar '.' (stripDollar (pyStrip path.data))).filter
            (fun p => !p.isEmpty), p.contains lbrack = false) →
        ∃ v, extract_with_fallback data path = .ok v)
    ∧ (∀ (data : JVal) (path : String),
        (∀ kvs, data ≠ .obj kvs) →
        extract_with_fallback data path = .ok data) := by
  refine ⟨fun data path => rfl, fun data path v => rfl,
    fun data path v1 v2 vs => rfl, fun data path => rfl, ?_, ?_⟩
  · intro data path hnb
    cases data with
    | obj kvs => exact fallbackGo_no_bracket_ok (.obj kvs) _ (.obj kvs) hnb
    | null => exact ⟨.null, rfl⟩
    | bool b => exact ⟨.bool b, rfl⟩
    | num n => exact ⟨.num n, rfl⟩
    | str s => exact ⟨.str s, rfl⟩
    | arr xs => exact ⟨.arr xs, rfl⟩
  · intro data path hno
    cases data with
    | obj kvs => exact absurd rfl (hno kvs)
    | null => rfl
    | bool b => rfl
    | num n => rfl
    | str s => rfl
    | arr xs => rfl

/-- Witness for the amended C4, including the spec's own example: the
unmatched path `$.nonexistent` over `{"results": [{"year": 2020}]}` is
fail-open. -/
theorem extraction_policy_amended_witness :
    (∃ v, extract_with_fallback
        (.obj [("results", .arr [.obj [("year", .num 2020)]])])
        "$.nonexistent" = .ok v)
    ∧ extract_with_fallback (.num 7) "$.a.b" = .ok (.num 7) :=
  ⟨extraction_policy_amended.2.2.2.2.1
      (.obj [("results", .arr [.obj [("year", .num 2020)]])])
      "$.nonexistent" (by decide),
   extraction_policy_amended.2.2.2.2.2 (.num 7) "$.a.b"
      (fun kvs h => JVal.noConfusion h)⟩

/-- Counterexample to C8 as stated: the USDA transform maps a scalar payload
to an empty record list (its `else` branch is `records = []`), not to the
claimed single record `{"value": payload}`. -/
theorem usda_scalar_transform_counterexample :
    usdaTransform (.num 5) = .ok ⟨0, .arr [], []⟩
    ∧ (JVal.arr [] : JVal) ≠ .arr [.obj [("value", .num 5)]] :=
  ⟨rfl, by simp⟩

/-- C8 (amended). Transform shape handling: the FBI transform behaves as the
claim states — `results`/`data`-keyed dicts yield that key's list, a bare
list yields itself, a scalar is wrapped as `[{"value": payload}]`, and
`record_count` always equals the length of the produced record list.  The
USDA transform only honours the `data` key and the bare-list shape; a dict
without `data` (including one keyed `results`) and a scalar both yield an
empty record list (with `record_count = 0`). -/
theorem transform_shapes_amended :
    (∀ (kvs : List (String × JVal)) (rs : List JVal),
        lookupJ kvs "results" = some (.arr rs) →
        fbiTransform (.obj kvs)
          = ⟨rs.length, .arr rs, fbi_create_schema_from_records rs⟩)
    ∧ (∀ (kvs : List (String × JVal)) (rs : List JVal),
        lookupJ kvs "results" = none → lookupJ kvs "data" = some (.arr rs) →
        fbiTransform (.obj kvs)
          = ⟨rs.length, .arr rs, fbi_create_schema_from_records rs⟩)
    ∧ (∀ xs : List JVal,
        fbiTransform (.arr xs)
          = ⟨xs.length, .arr xs, fbi_create_schema_from_records xs⟩)
    ∧ (∀ n : Int,
        fbiTransform (.num n)
          = ⟨1, .arr [.obj [("value", .num n)]], [("value", "number")]⟩)
    ∧ (∀ s : String,
        fbiTransform (.str s)
          = ⟨1, .arr [.obj [("value", .str s)]], [("value", "string")]⟩)
    ∧ (∀ v : JVal, ∃ records : List JVal,
        (fbiTransform v).data = .arr records
        ∧ (fbiTransform v).recordCount = records.length)
    ∧ (∀ (kvs : List (String × JVal)) (rs : List JVal),
        lookupJ kvs "data" = some (.arr rs) →
        (rs = [] ∨ ∃ kvs0 rest, rs = .obj kvs0 :: rest) →
        ∃ flds, usdaTransform (.obj kvs) = .ok ⟨rs.length, .arr rs, flds⟩)
    ∧ (∀ rs : List JVal,
        (rs = [] ∨ ∃ kvs0 rest, rs = .obj kvs0 :: rest) →
        ∃ flds, usdaTransform (.arr rs) = .ok ⟨rs.length, .arr rs, flds⟩)
    ∧ (∀ n : Int, usdaTransform (.num n) = .ok ⟨0, .arr [], []⟩)
    ∧ (∀ (kvs : List (String × JVal)) (rs : List JVal),
        lookupJ kvs "data" = none → lookupJ kvs "results" = some (.arr rs) →
        usdaTransform (.obj kvs) = .ok ⟨0, .arr [], []⟩) := by
  refine ⟨?_, ?_, ?_, fun n => rfl, fun s => rfl, ?_, ?_, ?_, fun n => rfl, ?_⟩
  · intro kvs rs h
    simp [fbiTransform, h]
  · intro kvs rs h1 h2
    simp [fbiTransform, h1, h2]
  · intro xs
    rfl
  · intro v
    unfold fbiTransform
    cases v with
    | obj kvs =>
        cases h : lookupJ kvs "results" with
        | some r =>
            cases r <;> simp [h]
        | none =>
            cases h2 : lookupJ kvs "data" with
            | some d => cases d <;> simp [h, h2]
            | none => simp [h, h2]
    | arr xs => exact ⟨xs, rfl, rfl⟩
    | null => exact ⟨[.obj [("value", .null)]], rfl, rfl⟩
    | bool b => exact ⟨[.obj [("value", .bool b)]], rfl, rfl⟩
    | num n => exact ⟨[.obj [("value", .num n)]], rfl, rfl⟩
    | str s => exact ⟨[.obj [("value", .str s)]], rfl, rfl⟩
  · intro kvs rs h hshape
    rcases hshape with h0 | ⟨kvs0, rest, h0⟩ <;> subst h0
    · exact ⟨[], by simp only [usdaTransform, h]; rfl⟩
    · exact ⟨kvs0.map (fun kv => (kv.1, usdaFieldType kv.2)), by
        simp [usdaTransform, h, pyLen, pyTruthy, usda_infer_schema]⟩
  · intro rs hshape
    rcases hshape with h0 | ⟨kvs0, rest, h0⟩ <;> subst h0
    · exact ⟨[], rfl⟩
    · exact ⟨kvs0.map (fun kv => (kv.1, usdaFieldType kv.2)), by
        simp [usdaTransform, pyLen, pyTruthy, usda_infer_schema]⟩
  · intro kvs rs h1 h2
    simp only [usdaTransform, h1]
    rfl

/-- Witness for the amended C8 at concrete payloads of each shape. -/
theorem transform_shapes_amended_witness :
    fbiTransform (.obj [("results", .arr [.obj [("year", .num 2020)]])])
      = ⟨1, .arr [.obj [("year", .num 2020)]], [("year", "number")]⟩
    ∧ fbiTransform (.str "x")
      = ⟨1, .arr [.obj [("value", .str "x")]], [("value", "string")]⟩
    ∧ (∃ flds, usdaTransform (.obj [("data", .arr [.obj [("y", .num 1)]])])
        = .ok ⟨1, .arr [.obj [("y", .num 1)]], flds⟩)
    ∧ usdaTransform (.obj [("results", .arr [.obj [("year", .num 2020)]])])
        = .ok ⟨0, .arr [], []⟩ := by
  refine ⟨?_, transform_shapes_amended.2.2.2.2.1 "x", ?_, ?_⟩
  · exact transform_shapes_amended.1 [("results", .arr [.obj [("year", .num 2020)]])]
      [.obj [("year", .num 2020)]] rfl
  · exact transform_shapes_amended.2.2.2.2.2.2.1
      [("data", .arr [.obj [("y", .num 1)]])] [.obj [("y", .num 1)]] rfl
      (Or.inr ⟨[("y", .num 1)], [], rfl⟩)
  · exact transform_shapes_amended.2.2.2.2.2.2.2.2.2
      [("results", .arr [.obj [("year", .num 2020)]])]
      [.obj [("year", .num 2020)]] rfl rfl

theorem fbiGo_rl_append (ras : List (Option Nat)) :
    ∀ (delay a : Nat) (lastE : Option String) (sleeps : List Nat)
      (l : List FBIOutcome),
      fbiRetryGo delay a lastE sleeps (ras.map FBIOutcome.rateLimited ++ l)
        = fbiRetryGo delay (a + ras.length) lastE
            (sleeps ++ ras.map (fun ra => ra.getD delay)) l := by
  induction ras with
  | nil => intro delay a lastE sleeps l; simp
  | cons ra ras ih =>
      intro delay a lastE sleeps l
      simp only [List.map_cons, List.cons_append, List.length_cons, fbiRetryGo, List.append_eq]
      rw [ih,
        show a + 1 + ras.length = a + (ras.length + 1) from by omega,
        List.append_assoc, List.singleton_append]

theorem fbiGo_fail_append (es : List String) :
    ∀ (delay a : Nat) (lastE : Option String) (sleeps : List Nat) (e : String),
      fbiRetryGo delay a lastE sleeps
          (es.map FBIOutcome.failure ++ [FBIOutcome.failure e])
        = ⟨a + es.length + 1,
           sleeps ++ (List.range' a es.length).map (fun j => delay * 2 ^ j),
           .error (some e)⟩ := by
  induction es with
  | nil =>
      intro delay a lastE sleeps e
      simp [fbiRetryGo]
  | cons e0 es ih =>
      intro delay a lastE sleeps e
      have hne : (es.map FBIOutcome.failure ++ [FBIOutcome.failure e]).isEmpty
          = false := by simp
      simp only [List.map_cons, List.cons_append, List.length_cons, fbiRetryGo,
        List.append_eq, hne, Bool.false_eq_true, if_false]
      rw [ih,
        show a + 1 + es.length + 1 = a + (es.length + 1) + 1 from by omega,
        List.range'_succ, List.map_cons, List.append_assoc,
        List.singleton_append]

theorem usdaGo_429_append (ras : List (Option Nat)) :
    ∀ (delay a : Nat) (sleeps : List Nat) (l : List USDAOutcome),
      usdaRetryGo delay a sleeps (ras.map USDAOutcome.status429 ++ l)
        = usdaRetryGo delay (a + ras.length)
            (sleeps ++ (List.range' a ras.length).map (fun j => delay * 2 ^ j))
            l := by
  induction ras with
  | nil => intro delay a sleeps l; simp
  | cons ra ras ih =>
      intro delay a sleeps l
      simp only [List.map_cons, List.cons_append, List.length_cons, usdaRetryGo, List.append_eq]
      rw [ih,
        show a + 1 + ras.length = a + (ras.length + 1) from by omega,
        List.range'_succ, List.map_cons, List.append_assoc,
        List.singleton_append]

theorem usdaGo_other_append (cs : List (Nat × String)) :
    ∀ (delay a : Nat) (sleeps : List Nat) (c : Nat) (t : String),
      usdaRetryGo delay a sleeps
          (cs.map (fun x => USDAOutcome.statusOther x.1 x.2)
            ++ [USDAOutcome.statusOther c t])
        = ⟨a + cs.length + 1,
           sleeps ++ (List.range' a cs.length).map (fun j => delay * 2 ^ j),
           .error (.apiError c t)⟩ := by
  induction cs with
  | nil =>
      intro delay a sleeps c t
      simp [usdaRetryGo]
  | cons c0 cs ih =>
      intro delay a sleeps c t
      have hne : (cs.map (fun x => USDAOutcome.statusOther x.1 x.2)
          ++ [USDAOutcome.statusOther c t]).isEmpty = false := by simp
      simp only [List.map_cons, List.cons_append, List.length_cons, usdaRetryGo,
        List.append_eq, hne, Bool.false_eq_true, if_false]
      rw [ih,
        show a + 1 + cs.length + 1 = a + (cs.length + 1) + 1 from by omega,
        List.range'_succ, List.map_cons, List.append_assoc,
        List.singleton_append]

/-- Counterexample to C5 as stated: the USDA connector receives a 429
carrying `Retry-After: 7` on its first attempt but sleeps
`retry_delay * 2 ** attempt = 1`, not the header value — its rate-limit
branch never reads `Retry-After` and consumes exponential backoff. -/
theorem retry_backoff_counterexample :
    (usda_query_retry 1
        [USDAOutcome.status429 (some 7), USDAOutcome.ok200 (.num 1)]).sleeps
      = [1]
    ∧ ([1] : List Nat) ≠ [7] :=
  ⟨rfl, by decide⟩

/-- C5 (amended). Retry policy on rate limiting: the FBI connector sleeps
the `Retry-After` value (or the configured delay when the header is absent)
on each 429 and retries without an exponential-backoff sleep, and sleeps
`retry_delay * 2 ** attempt` before retrying a network/HTTP error; the USDA
connector instead sleeps `retry_delay * 2 ** attempt` on 429 as well,
ignoring the `Retry-After` header. -/
theorem retry_backoff_amended :
    (∀ (delay : Nat) (ras : List (Option Nat)) (body : JVal)
        (post : List FBIOutcome),
        fbi_execute_with_retry delay
            (ras.map FBIOutcome.rateLimited ++ FBIOutcome.success body :: post)
          = ⟨ras.length + 1, ras.map (fun ra => ra.getD delay), .ok body⟩)
    ∧ (∀ (delay a : Nat) (lastE : Option String) (sleeps : List Nat)
        (e : String) (o : FBIOutcome) (rest : List FBIOutcome),
        fbiRetryGo delay a lastE sleeps (FBIOutcome.failure e :: o :: rest)
          = fbiRetryGo delay (a + 1) (some e) (sleeps ++ [delay * 2 ^ a])
              (o :: rest))
    ∧ (∀ (delay : Nat) (ras : List (Option Nat)) (body : JVal)
        (post : List USDAOutcome),
        usda_query_retry delay
            (ras.map USDAOutcome.status429 ++ USDAOutcome.ok200 body :: post)
          = ⟨ras.length + 1,
             (List.range ras.length).map (fun j => delay * 2 ^ j), .ok body⟩) := by
  refine ⟨?_, ?_, ?_⟩
  · intro delay ras body post
    unfold fbi_execute_with_retry
    rw [fbiGo_rl_append]
    simp [fbiRetryGo]
  · intro delay a lastE sleeps e o rest
    simp [fbiRetryGo]
  · intro delay ras body post
    unfold usda_query_retry
    rw [usdaGo_429_append]
    simp [usdaRetryGo, List.range_eq_range']

/-- Counterexample to C6 as stated: an endpoint that answers 429 on every
attempt fails every attempt, yet after `max_retries = 3` attempts the FBI
connector executes `raise last_exception` with `last_exception = None`
(a `TypeError` in Python, modelled `.error none`) — no upstream error is
propagated. -/
theorem retry_exhaustion_counterexample :
    (fbi_execute_with_retry 1
        [FBIOutcome.rateLimited none, FBIOutcome.rateLimited none,
         FBIOutcome.rateLimited none]).result = .error none
    ∧ ∀ e : String,
        (fbi_execute_with_retry 1
            [FBIOutcome.rateLimited none, FBIOutcome.rateLimited none,
             FBIOutcome.rateLimited none]).result ≠ .error (some e) := by
  constructor
  · rfl
  · intro e h
    rw [show (fbi_execute_with_retry 1
        [FBIOutcome.rateLimited none, FBIOutcome.rateLimited none,
         FBIOutcome.rateLimited none]).result
      = Except.error (none : Option String) from rfl] at h
    injection h with h2
    exact Option.noConfusion h2

/-- C6 (amended). Retry exhaustion: when every attempt raises a request
error (FBI) or returns a non-200/non-429 status (USDA), the connector makes
exactly `max_retries` attempts and propagates the final attempt's error
unmodified.  When every attempt is a 429, both connectors still stop after
`max_retries` attempts, but the FBI connector raises from `raise None`
instead of an upstream error and the USDA connector raises a fresh generic
`Exception("Max retries exceeded")`. -/
theorem retry_exhaustion_amended :
    (∀ (delay : Nat) (es : List String) (e : String),
        fbi_execute_with_retry delay
            (es.map FBIOutcome.failure ++ [FBIOutcome.failure e])
          = ⟨es.length + 1,
             (List.range es.length).map (fun j => delay * 2 ^ j),
             .error (some e)⟩)
    ∧ (∀ (delay : Nat) (cs : List (Nat × String)) (c : Nat) (t : String),
        usda_query_retry delay
            (cs.map (fun x => USDAOutcome.statusOther x.1 x.2)
              ++ [USDAOutcome.statusOther c t])
          = ⟨cs.length + 1,
             (List.range cs.length).map (fun j => delay * 2 ^ j),
             .error (.apiError c t)⟩)
    ∧ (∀ (delay : Nat) (ras : List (Option Nat)),
        fbi_execute_with_retry delay (ras.map FBIOutcome.rateLimited)
          = ⟨ras.length, ras.map (fun ra => ra.getD delay), .error none⟩)
    ∧ (∀ (delay : Nat) (ras : List (Option Nat)),
        usda_query_retry delay (ras.map USDAOutcome.status429)
          = ⟨ras.length,
             (List.range ras.length).map (fun j => delay * 2 ^ j),
             .error .maxRetriesExceeded⟩) := by
  refine ⟨?_, ?_, ?_, ?_⟩
  · intro delay es e
    unfold fbi_execute_with_retry
    rw [fbiGo_fail_append]
    simp [List.range_eq_range']
  · intro delay cs c t
    unfold usda_query_retry
    rw [usdaGo_other_append]
    simp [List.range_eq_range']
  · intro delay ras
    unfold fbi_execute_with_retry
    rw [show ras.map FBIOutcome.rateLimited
        = ras.map FBIOutcome.rateLimited ++ [] from by simp]
    rw [fbiGo_rl_append]
    simp [fbiRetryGo]
  · intro delay ras
    unfold usda_query_retry
    rw [show ras.map USDAOutcome.status429
        = ras.map USDAOutcome.status429 ++ [] from by simp]
    rw [usdaGo_429_append]
    simp [usdaRetryGo, List.range_eq_range']

theorem lookupJ_upsert_self (l : List (String × JVal)) (k : String) (v : JVal) :
    lookupJ (upsertJ l k v) k = some v := by
  induction l with
  | nil => simp [upsertJ, lookupJ]
  | cons kv rest ih =>
      obtain ⟨k1, v1⟩ := kv
      by_cases h : k1 = k
      · simp [upsertJ, h, lookupJ]
      · simp [upsertJ, h, lookupJ, ih]

theorem lookupJ_upsert_ne (l : List (String × JVal)) (k : String) (v : JVal)
    (k2 : String) (hne : k2 ≠ k) :
    lookupJ (upsertJ l k v) k2 = lookupJ l k2 := by
  induction l with
  | nil => simp [upsertJ, lookupJ, Ne.symm hne]
  | cons kv rest ih =>
      obtain ⟨k1, v1⟩ := kv
      by_cases h : k1 = k
      · subst h
        simp [upsertJ, lookupJ, Ne.symm hne]
      · simp only [upsertJ, h, if_false]
        by_cases h2 : k1 = k2
        · simp [lookupJ, h2]
        · simp [lookupJ, h2, ih]

theorem lookupJ_mem :
    ∀ (l : List (String × JVal)) (k : String) (v : JVal),
      lookupJ l k = some v → (k, v) ∈ l := by
  intro l
  induction l with
  | nil => intro k v h; simp [lookupJ] at h
  | cons kv rest ih =>
      intro k v h
      obtain ⟨k1, v1⟩ := kv
      by_cases he : k1 = k
      · subst he
        simp [lookupJ] at h
        subst h
        exact List.mem_cons_self _ _
      · simp [lookupJ, he] at h
        exact List.mem_cons_of_mem _ (ih k v h)

theorem lookupJ_of_mem_nodup :
    ∀ (l : List (String × JVal)) (k : String) (v : JVal),
      (l.map Prod.fst).Nodup → (k, v) ∈ l → lookupJ l k = some v := by
  intro l
  induction l with
  | nil => intro k v _ h; simp at h
  | cons kv rest ih =>
      intro k v hnd hm
      obtain ⟨k1, v1⟩ := kv
      simp only [List.map_cons, List.nodup_cons] at hnd
      rcases List.mem_cons.mp hm with he | ht
      · rw [Prod.mk.injEq] at he
        obtain ⟨he1, he2⟩ := he
        simp [lookupJ, he1, he2]
      · have hk : k1 ≠ k := by
          intro hkk
          subst hkk
          exact hnd.1 (List.mem_map.mpr ⟨(k1, v), ht, rfl⟩)
        simp [lookupJ, hk]
        exact ih k v hnd.2 ht

theorem mem_upsertJ :
    ∀ (l : List (String × JVal)) (k : String) (v : JVal) (kv : String × JVal),
      kv ∈ upsertJ l k v → kv ∈ l ∨ kv = (k, v) := by
  intro l
  induction l with
  | nil => intro k v kv h; simp [upsertJ] at h; exact Or.inr h
  | cons kv1 rest ih =>
      intro k v kv h
      obtain ⟨k1, v1⟩ := kv1
      by_cases he : k1 = k
      · simp only [upsertJ, he, if_pos rfl] at h
        rcases List.mem_cons.mp h with h2 | h2
        · exact Or.inr h2
        · exact Or.inl (List.mem_cons_of_mem _ h2)
      · simp only [upsertJ, he, if_false] at h
        rcases List.mem_cons.mp h with h2 | h2
        · exact Or.inl (h2 ▸ List.mem_cons_self _ _)
        · rcases ih k v kv h2 with h3 | h3
          · exact Or.inl (List.mem_cons_of_mem _ h3)
          · exact Or.inr h3

theorem substituteStep_lookup_ne (dp acc : List (String × JVal))
    (k s k2 : String) (hne : k2 ≠ k) :
    lookupJ (substituteStep dp acc k s) k2 = lookupJ acc k2 := by
  unfold substituteStep
  cases lookupJ dp k with
  | some dv => exact lookupJ_upsert_ne acc k dv k2 hne
  | none =>
      cases extract_param_name s with
      | ok nm =>
          show lookupJ (match lookupJ dp nm with
                        | some dv => upsertJ acc k dv
                        | none => acc) k2 = lookupJ acc k2
          cases lookupJ dp nm with
          | some dv => exact lookupJ_upsert_ne acc k dv k2 hne
          | none => rfl
      | error e => rfl

theorem substituteStep_lookup_self (dp acc : List (String × JVal))
    (k s : String) (hnone : lookupJ acc k = none) :
    lookupJ (substituteStep dp acc k s) k
      = (match lookupJ dp k with
         | some dv => some dv
         | none =>
             match extract_param_name s with
             | .ok nm => lookupJ dp nm
             | .error _ => none) := by
  unfold substituteStep
  cases lookupJ dp k with
  | some dv => exact lookupJ_upsert_self acc k dv
  | none =>
      cases extract_param_name s with
      | ok nm =>
          show lookupJ (match lookupJ dp nm with
                        | some dv => upsertJ acc k dv
                        | none => acc) k = lookupJ dp nm
          cases lookupJ dp nm with
          | some dv => exact lookupJ_upsert_self acc k dv
          | none => exact hnone
      | error e => exact hnone

theorem substituteStep_no_placeholder (dp acc : List (String × JVal))
    (k s : String)
    (hacc : ∀ kv ∈ acc, is_dynamic_placeholder kv.2 = false)
    (hdp : ∀ v ∈ dp.map Prod.snd, is_dynamic_placeholder v = false) :
    ∀ kv ∈ substituteStep dp acc k s, is_dynamic_placeholder kv.2 = false := by
  have hstep :
      ∀ dv : JVal, dv ∈ dp.map Prod.snd →
        ∀ kv2 ∈ upsertJ acc k dv, is_dynamic_placeholder kv2.2 = false := by
    intro dv hdv kv2 hkv2
    rcases mem_upsertJ acc k dv kv2 hkv2 with h | h
    · exact hacc kv2 h
    · rw [h]
      exact hdp dv hdv
  unfold substituteStep
  cases h1 : lookupJ dp k with
  | some dv =>
      exact hstep dv (List.mem_map.mpr ⟨(k, dv), lookupJ_mem dp k dv h1, rfl⟩)
  | none =>
      cases extract_param_name s with
      | ok nm =>
          show ∀ kv ∈ (match lookupJ dp nm with
                       | some dv => upsertJ acc k dv
                       | none => acc), is_dynamic_placeholder kv.2 = false
          cases h3 : lookupJ dp nm with
          | some dv =>
              exact hstep dv
                (List.mem_map.mpr ⟨(nm, dv), lookupJ_mem dp nm dv h3, rfl⟩)
          | none => exact hacc
      | error e => exact hacc

theorem subst_lookup_not_mem (dp : List (String × JVal)) :
    ∀ (dyns : List (String × String)) (acc : List (String × JVal)) (k : String),
      k ∉ dyns.map Prod.fst →
      lookupJ (substituteDynamic dp acc dyns) k = lookupJ acc k := by
  intro dyns
  induction dyns with
  | nil => intro acc k _; rfl
  | cons ks rest ih =>
      intro acc k hk
      obtain ⟨k1, s1⟩ := ks
      simp only [List.map_cons, List.mem_cons] at hk
      push_neg at hk
      unfold substituteDynamic
      rw [ih _ k hk.2]
      exact substituteStep_lookup_ne dp acc k1 s1 k hk.1

theorem subst_lookup (dp : List (String × JVal)) :
    ∀ (dyns : List (String × String)) (acc : List (String × JVal))
      (k s : String),
      (dyns.map Prod.fst).Nodup → (k, s) ∈ dyns → lookupJ acc k = none →
      lookupJ (substituteDynamic dp acc dyns) k
        = (match lookupJ dp k with
           | some dv => some dv
           | none =>
               match extract_param_name s with
               | .ok nm => lookupJ dp nm
               | .error _ => none) := by
  intro dyns
  induction dyns with
  | nil => intro acc k s _ hm; simp at hm
  | cons ks rest ih =>
      intro acc k s hnd hm hnone
      obtain ⟨k1, s1⟩ := ks
      simp only [List.map_cons, List.nodup_cons] at hnd
      rcases List.mem_cons.mp hm with he | ht
      · rw [Prod.mk.injEq] at he
        obtain ⟨he1, he2⟩ := he
        subst he1
        subst he2
        unfold substituteDynamic
        rw [subst_lookup_not_mem dp rest _ k hnd.1]
        exact substituteStep_lookup_self dp acc k s hnone
      · have hne : k ≠ k1 := by
          intro hkk
          subst hkk
          exact hnd.1 (List.mem_map.mpr ⟨(k, s), ht, rfl⟩)
        unfold substituteDynamic
        exact ih _ k s hnd.2 ht
          (by rw [substituteStep_lookup_ne dp acc k1 s1 k hne]; exact hnone)

theorem subst_no_placeholder (dp : List (String × JVal)) :
    ∀ (dyns : List (String × String)) (acc : List (String × JVal)),
      (∀ kv ∈ acc, is_dynamic_placeholder kv.2 = false) →
      (∀ v ∈ dp.map Prod.snd, is_dynamic_placeholder v = false) →
      ∀ kv ∈ substituteDynamic dp acc dyns,
        is_dynamic_placeholder kv.2 = false := by
  intro dyns
  induction dyns with
  | nil => intro acc hacc _ kv hkv; exact hacc kv hkv
  | cons ks rest ih =>
      intro acc hacc hdp kv hkv
      obtain ⟨k1, s1⟩ := ks
      unfold substituteDynamic at hkv
      exact ih _ (substituteStep_no_placeholder dp acc k1 s1 hacc hdp) hdp kv hkv

theorem endpointOf_ok (query : List (String × JVal))
    (h : endpointOk query = true) : ∃ ep, endpointOf query = .ok ep := by
  unfold endpointOk at h
  unfold endpointOf
  cases hq : lookupJ query "endpoint" with
  | none => exact ⟨"", rfl⟩
  | some v =>
      rw [hq] at h
      cases v with
      | str s => exact ⟨String.mk (pyStrip s.data), rfl⟩
      | null => exact ⟨"", rfl⟩
      | bool b => simp at h
      | num n => simp at h
      | arr xs => simp at h
      | obj kvs => simp at h

theorem resolve_api_key_param_excluded (cfg : FBIConfig) (ep : String) :
    (excludedKeys cfg).contains (resolve_api_key_param cfg ep) = true := by
  unfold resolve_api_key_param excludedKeys
  by_cases h1 : cfg.apiKeyParamExplicit
  · simp [h1]
  · by_cases h2 : (is_cde_endpoint ep || containsSub "cde" cfg.baseUrl) = true
    · simp [h1, h2]
    · simp [h1] at h2 ⊢
      simp [h2]

theorem categorize_spec (excl : List String) :
    ∀ query : List (String × JVal),
      (∀ kv ∈ query, is_dynamic_placeholder kv.2 = true →
        placeholderNameOk kv.2 = true) →
      ∃ hard dyns,
        categorizeParams excl query = .ok (hard, dyns)
        ∧ List.Sublist (hard.map Prod.fst) (query.map Prod.fst)
        ∧ List.Sublist (dyns.map Prod.fst) (query.map Prod.fst)
        ∧ (∀ kv ∈ hard, kv ∈ query ∧ is_dynamic_placeholder kv.2 = false)
        ∧ (∀ k2 s2, (k2, JVal.str s2) ∈ query → excl.contains k2 = false →
            is_dynamic_placeholder (.str s2) = true → (k2, s2) ∈ dyns) := by
  intro query
  induction query with
  | nil =>
      intro _
      exact ⟨[], [], rfl, List.Sublist.refl _, List.Sublist.refl _,
        by simp, by simp⟩
  | cons kv0 rest ih =>
      intro hnames
      obtain ⟨hard, dyns, hok, hsub1, hsub2, hhard, hdyn⟩ :=
        ih (fun kv2 h2 => hnames kv2 (List.mem_cons_of_mem kv0 h2))
      obtain ⟨k0, v0⟩ := kv0
      by_cases hex : excl.contains k0 = true
      · refine ⟨hard, dyns, ?_, ?_, ?_, ?_, ?_⟩
        · unfold categorizeParams
          rw [hex]
          simp [hok]
        · exact hsub1.trans (List.sublist_cons_self _ _)
        · exact hsub2.trans (List.sublist_cons_self _ _)
        · exact fun kv h =>
            ⟨List.mem_cons_of_mem _ (hhard kv h).1, (hhard kv h).2⟩
        · intro k2 s2 hm hexc hdy
          rcases List.mem_cons.mp hm with he | ht
          · rw [Prod.mk.injEq] at he
            rw [he.1] at hexc
            rw [hexc] at hex
            exact absurd hex (by simp)
          · exact hdyn k2 s2 ht hexc hdy
      · have hex' : excl.contains k0 = false := by simpa using hex
        cases v0 with
        | null =>
            refine ⟨hard, dyns, ?_, ?_, ?_, ?_, ?_⟩
            · unfold categorizeParams
              rw [hex']
              simp [hok]
            · exact hsub1.trans (List.sublist_cons_self _ _)
            · exact hsub2.trans (List.sublist_cons_self _ _)
            · exact fun kv h =>
                ⟨List.mem_cons_of_mem _ (hhard kv h).1, (hhard kv h).2⟩
            · intro k2 s2 hm hexc hdy
              rcases List.mem_cons.mp hm with he | ht
              · rw [Prod.mk.injEq] at he
                exact absurd he.2 (fun hh => JVal.noConfusion hh)
              · exact hdyn k2 s2 ht hexc hdy
        | str s0 =>
            by_cases hdy0 : is_dynamic_placeholder (.str s0) = true
            · have hnm : placeholderNameOk (.str s0) = true :=
                hnames (k0, .str s0) (List.mem_cons_self _ _) hdy0
              obtain ⟨nm, hnm2⟩ : ∃ nm, extract_param_name s0 = .ok nm := by
                have hnm2 : (match extract_param_name s0 with
                             | Except.ok _ => true
                             | Except.error _ => false) = true := hnm
                cases he : extract_param_name s0 with
                | ok nm => exact ⟨nm, rfl⟩
                | error e => rw [he] at hnm2; simp at hnm2
              refine ⟨hard, (k0, s0) :: dyns, ?_, ?_, ?_, ?_, ?_⟩
              · unfold categorizeParams
                rw [hex']
                simp [hdy0, hnm2, hok]
              · exact hsub1.trans (List.sublist_cons_self _ _)
              · exact List.Sublist.cons₂ k0 hsub2
              · exact fun kv h =>
                  ⟨List.mem_cons_of_mem _ (hhard kv h).1, (hhard kv h).2⟩
              · intro k2 s2 hm hexc hdy
                rcases List.mem_cons.mp hm with he | ht
                · rw [Prod.mk.injEq] at he
                  obtain ⟨he1, he2⟩ := he
                  have hs : s2 = s0 := by
                    injection he2
                  rw [he1, hs]
                  exact List.mem_cons_self _ _
                · exact List.mem_cons_of_mem _ (hdyn k2 s2 ht hexc hdy)
            · have hdy0' : is_dynamic_placeholder (.str s0) = false := by
                simpa using hdy0
              refine ⟨(k0, .str s0) :: hard, dyns, ?_, ?_, ?_, ?_, ?_⟩
              · unfold categorizeParams
                rw [hex']
                simp [hdy0', hok]
              · exact List.Sublist.cons₂ k0 hsub1
              · exact hsub2.trans (List.sublist_cons_self _ _)
              · intro kv h
                rcases List.mem_cons.mp h with he | ht
                · rw [he]
                  exact ⟨List.mem_cons_self _ _, hdy0'⟩
                · exact ⟨List.mem_cons_of_mem _ (hhard kv ht).1,
                    (hhard kv ht).2⟩
              · intro k2 s2 hm hexc hdy
                rcases List.mem_cons.mp hm with he | ht
                · rw [Prod.mk.injEq] at he
                  obtain ⟨he1, he2⟩ := he
                  have hs : s2 = s0 := by injection he2
                  rw [hs] at hdy
                  rw [hdy] at hdy0'
                  exact absurd hdy0' (by simp)
                · exact hdyn k2 s2 ht hexc hdy
        | bool b =>
            refine ⟨(k0, .bool b) :: hard, dyns, ?_, ?_, ?_, ?_, ?_⟩
            · unfold categorizeParams
              rw [hex']
              simp [hok]
            · exact List.Sublist.cons₂ k0 hsub1
            · exact hsub2.trans (List.sublist_cons_self _ _)
            · intro kv h
              rcases List.mem_cons.mp h with he | ht
              · rw [he]
                exact ⟨List.mem_cons_self _ _, rfl⟩
              · exact ⟨List.mem_cons_of_mem _ (hhard kv ht).1, (hhard kv ht).2⟩
            · intro k2 s2 hm hexc hdy
              rcases List.mem_cons.mp hm with he | ht
              · rw [Prod.mk.injEq] at he
                exact absurd he.2 (fun hh => JVal.noConfusion hh)
              · exact hdyn k2 s2 ht hexc hdy
        | num n =>
            refine ⟨(k0, .num n) :: hard, dyns, ?_, ?_, ?_, ?_, ?_⟩
            · unfold categorizeParams
              rw [hex']
              simp [hok]
            · exact List.Sublist.cons₂ k0 hsub1
            · exact hsub2.trans (List.sublist_cons_self _ _)
            · intro kv h
              rcases List.mem_cons.mp h with he | ht
              · rw [he]
                exact ⟨List.mem_cons_self _ _, rfl⟩
              · exact ⟨List.mem_cons_of_mem _ (hhard kv ht).1, (hhard kv ht).2⟩
            · intro k2 s2 hm hexc hdy
              rcases List.mem_cons.mp hm with he | ht
              · rw [Prod.mk.injEq] at he
                exact absurd he.2 (fun hh => JVal.noConfusion hh)
              · exact hdyn k2 s2 ht hexc hdy
        | arr xs =>
            refine ⟨(k0, .arr xs) :: hard, dyns, ?_, ?_, ?_, ?_, ?_⟩
            · unfold categorizeParams
              rw [hex']
              simp [hok]
            · exact List.Sublist.cons₂ k0 hsub1
            · exact hsub2.trans (List.sublist_cons_self _ _)
            · intro kv h
              rcases List.mem_cons.mp h with he | ht
              · rw [he]
                exact ⟨List.mem_cons_self _ _, rfl⟩
              · exact ⟨List.mem_cons_of_mem _ (hhard kv ht).1, (hhard kv ht).2⟩
            · intro k2 s2 hm hexc hdy
              rcases List.mem_cons.mp hm with he | ht
              · rw [Prod.mk.injEq] at he
                exact absurd he.2 (fun hh => JVal.noConfusion hh)
              · exact hdyn k2 s2 ht hexc hdy
        | obj kvs2 =>
            refine ⟨(k0, .obj kvs2) :: hard, dyns, ?_, ?_, ?_, ?_, ?_⟩
            · unfold categorizeParams
              rw [hex']
              simp [hok]
            · exact List.Sublist.cons₂ k0 hsub1
            · exact hsub2.trans (List.sublist_cons_self _ _)
            · intro kv h
              rcases List.mem_cons.mp h with he | ht
              · rw [he]
                exact ⟨List.mem_cons_self _ _, rfl⟩
              · exact ⟨List.mem_cons_of_mem _ (hhard kv ht).1, (hhard kv ht).2⟩
            · intro k2 s2 hm hexc hdy
              rcases List.mem_cons.mp hm with he | ht
              · rw [Prod.mk.injEq] at he
                exact absurd he.2 (fun hh => JVal.noConfusion hh)
              · exact hdyn k2 s2 ht hexc hdy

/-- C3. Placeholder resolution: for every declared parameter whose value is
a dynamic `\x7bname ...\x7d` placeholder, the built request parameters hold
the value found by looking up the exact parameter key and then the extracted
name in `dynamic_params`; when neither resolves, the parameter is absent
from the built request and building still succeeds; and (given
non-placeholder dynamic values and API key) no value of the built request is
a placeholder, so the literal placeholder string never survives. -/
theorem placeholder_resolution (cfg : FBIConfig)
    (query dynamic_params : List (String × JVal)) (k s : String)
    (hnodup : (query.map Prod.fst).Nodup)
    (hep : endpointOk query = true)
    (hnames : ∀ kv ∈ query, is_dynamic_placeholder kv.2 = true →
        placeholderNameOk kv.2 = true)
    (hk : lookupJ query k = some (.str s))
    (hdy : is_dynamic_placeholder (.str s) = true)
    (hexc : (excludedKeys cfg).contains k = false) :
    ∃ plist, build_query_params cfg query dynamic_params = .ok plist
      ∧ lookupJ plist k
          = (match lookupJ dynamic_params k with
             | some dv => some dv
             | none =>
                 match extract_param_name s with
                 | .ok nm => lookupJ dynamic_params nm
                 | .error _ => none)
      ∧ ((∀ v ∈ dynamic_params.map Prod.snd,
            is_dynamic_placeholder v = false) →
         apiKeyNotPlaceholder cfg = true →
         ∀ kv ∈ plist, is_dynamic_placeholder kv.2 = false) := by
  obtain ⟨ep, hepok⟩ := endpointOf_ok query hep
  obtain ⟨hard, dyns, hok, hsub1, hsub2, hhard, hdyn⟩ :=
    categorize_spec (excludedKeys cfg) query hnames
  have hmemq : (k, JVal.str s) ∈ query := lookupJ_mem query k _ hk
  have hkdyn : (k, s) ∈ dyns := hdyn k s hmemq hexc hdy
  have hdynnodup : (dyns.map Prod.fst).Nodup := hnodup.sublist hsub2
  have hhardnone : lookupJ hard k = none := by
    cases hh : lookupJ hard k with
    | none => rfl
    | some v =>
        exfalso
        have hmemh := lookupJ_mem hard k v hh
        obtain ⟨hmq, hnd⟩ := hhard _ hmemh
        have huniq := lookupJ_of_mem_nodup query k v hnodup hmq
        rw [hk] at huniq
        injection huniq with hv
        rw [← hv] at hnd
        rw [hdy] at hnd
        exact Bool.noConfusion hnd
  have hsubst := subst_lookup dynamic_params dyns hard k s hdynnodup hkdyn
    hhardnone
  have hakp : k ≠ resolve_api_key_param cfg ep := by
    intro he
    have hmem := resolve_api_key_param_excluded cfg ep
    rw [← he] at hmem
    rw [hexc] at hmem
    exact Bool.noConfusion hmem
  have hbase : ∀ kv ∈ hard, is_dynamic_placeholder kv.2 = false :=
    fun kv h => (hhard kv h).2
  have hbuild : build_query_params cfg query dynamic_params
      = (match cfg.apiKey with
         | some key =>
             if key = "" then
               Except.ok (substituteDynamic dynamic_params hard dyns)
             else
               Except.ok (upsertJ (substituteDynamic dynamic_params hard dyns)
                 (resolve_api_key_param cfg ep) (.str key))
         | none =>
             Except.ok (substituteDynamic dynamic_params hard dyns)) := by
    unfold build_query_params
    rw [hepok, hok]
  cases hak : cfg.apiKey with
  | none =>
      rw [hak] at hbuild
      refine ⟨substituteDynamic dynamic_params hard dyns, hbuild, hsubst, ?_⟩
      intro hdpv _ kv hkv
      exact subst_no_placeholder dynamic_params dyns hard hbase hdpv kv hkv
  | some key =>
      rw [hak] at hbuild
      have hbuild2 : build_query_params cfg query dynamic_params
          = (if key = "" then
               Except.ok (substituteDynamic dynamic_params hard dyns)
             else
               Except.ok (upsertJ (substituteDynamic dynamic_params hard dyns)
                 (resolve_api_key_param cfg ep) (.str key))) := hbuild
      by_cases hkey : key = ""
      · rw [if_pos hkey] at hbuild2
        refine ⟨substituteDynamic dynamic_params hard dyns, hbuild2, hsubst, ?_⟩
        intro hdpv _ kv hkv
        exact subst_no_placeholder dynamic_params dyns hard hbase hdpv kv hkv
      · rw [if_neg hkey] at hbuild2
        refine ⟨upsertJ (substituteDynamic dynamic_params hard dyns)
          (resolve_api_key_param cfg ep) (.str key), hbuild2, ?_, ?_⟩
        · rw [lookupJ_upsert_ne _ _ _ _ hakp]
          exact hsubst
        · intro hdpv hknp kv hkv
          rcases mem_upsertJ _ _ _ kv hkv with h | h
          · exact subst_no_placeholder dynamic_params dyns hard hbase hdpv kv h
          · rw [h]
            unfold apiKeyNotPlaceholder at hknp
            rw [hak] at hknp
            simpa using hknp

/-- Witness for C3 at the spec's own example: parameters
`from=\x7bfrom mm-yyyy\x7d` with `dynamic_params=\x7bfrom: 01-2023\x7d` build to
`from=01-2023`, and no placeholder string survives in the built request. -/
theorem placeholder_resolution_witness :
    ∃ plist,
      build_query_params
          ⟨"https://api.usa.gov/crime/fbi/sapi", some "KEY", false, "api_key"⟩
          [("endpoint", .str "arrest/national/all"), ("type", .str "counts"),
           ("from", .str "\x7bfrom mm-yyyy\x7d")]
          [("from", .str "01-2023")] = .ok plist
      ∧ lookupJ plist "from" = some (.str "01-2023")
      ∧ ∀ kv ∈ plist, is_dynamic_placeholder kv.2 = false := by
  obtain ⟨plist, h1, h2, h3⟩ := placeholder_resolution
    ⟨"https://api.usa.gov/crime/fbi/sapi", some "KEY", false, "api_key"⟩
    [("endpoint", .str "arrest/national/all"), ("type", .str "counts"),
     ("from", .str "\x7bfrom mm-yyyy\x7d")]
    [("from", .str "01-2023")] "from" "\x7bfrom mm-yyyy\x7d"
    (by decide) (by decide) (by decide) rfl (by decide) (by decide)
  refine ⟨plist, h1, ?_, h3 (by decide) (by decide)⟩
  rw [h2]
  rfl
